import Mathlib

/-!
# Verification of the pthread laboratory programs

Shallow embedding of `src/p2_ring.cpp` (bounded ring buffer),
`src/p5_pipeline.cpp` (hand-written barrier, lock-step pipeline, queue-based
pipeline, shared set-up), of the bank transfer of `src/p4_deadlock.cpp` and of
the hash map of `src/p3_rw.cpp`.

Modelling conventions.

* Every function of the source runs its body while holding the mutex of the
  object it works on, and `pthread_cond_wait` gives the mutex up only inside a
  wait loop that has not touched the object yet.  A call is therefore one
  atomic step taken at the moment its wait loop is left; a call whose wait
  condition holds takes no step and is reported as `blocked`.
* `std::size_t` is a natural number; increments are reduced modulo `2 ^ 64`.
* `int` is a mathematical integer where the values stay far inside its range:
  signed overflow is undefined in C++, so a defined execution agrees with
  exact arithmetic. Where a claim reaches the ends of the range
  (`pthread_barrier_wait32`, `transfer_step`) the result of `++`, `+=` and
  `-=` is reduced to 32 bits by `wrapInt`, the two's complement result.
* `int buf[1024]` is a map from indices to cells; only indices below `Q` are
  cells of the array.
-/

namespace Lab06

/-! ## p2_ring.cpp -/

/-- Capacity of the ring: `const std::size_t Q = 1024`. -/
def Q : Nat := 1024

/-- Number of values of `std::size_t`. -/
def SIZE_MOD : Nat := 18446744073709551616

/-- The data members of `struct Ring` (the mutex and the two condition
variables are represented by the atomicity of the operations). -/
structure Ring where
  buf : Nat → Int
  head : Nat
  tail : Nat
  count : Nat
  stop : Bool

/-- The constructor `Ring()`: `head`, `tail`, `count` are zero and `stop` is
false; `buf` is not initialised, so its contents `b` are arbitrary. -/
def Ring.fresh (b : Nat → Int) : Ring :=
  { buf := b, head := 0, tail := 0, count := 0, stop := false }

/-- Assignment `buf[i] = v`. -/
def bufStore (buf : Nat → Int) (i : Nat) (v : Int) : Nat → Int :=
  fun j => if j = i then v else buf j

/-- Outcome of a call of `ring_push`: the caller is still inside the wait loop
(`blocked`) or the call has returned leaving the ring in state `r`. The
function is `void`, so no value is returned. -/
inductive PushResult where
  | blocked
  | done (r : Ring)

/-- Outcome of a call of `ring_pop`: still waiting, returned `false`, or
returned `true` with `*out = out`. -/
inductive PopResult where
  | blocked
  | eos (r : Ring)
  | item (r : Ring) (out : Int)

/-- Function `ring_push` of the source. -/
def ring_push (r : Ring) (v : Int) : PushResult :=
  if r.count == Q && !r.stop then
    PushResult.blocked
  else if !r.stop then
    PushResult.done
      { r with
        buf := bufStore r.buf r.head v
        head := (r.head + 1) % SIZE_MOD % Q
        count := (r.count + 1) % SIZE_MOD }
  else
    PushResult.done r

/-- Function `ring_pop` of the source. The decrement `count--` is only reached
with `count != 0`, so it never wraps. -/
def ring_pop (r : Ring) : PopResult :=
  if r.count == 0 && !r.stop then
    PopResult.blocked
  else if r.count == 0 && r.stop then
    PopResult.eos r
  else
    PopResult.item
      { r with
        tail := (r.tail + 1) % SIZE_MOD % Q
        count := r.count - 1 }
      (r.buf r.tail)

/-- Function `ring_shutdown` of the source. -/
def ring_shutdown (r : Ring) : Ring :=
  { r with stop := true }

/-- Value seen by the caller of `ring_push` when the call returns: the
function is declared `void`. `none` while the call is blocked. -/
def ring_push_return (r : Ring) (v : Int) : Option Unit :=
  match ring_push r v with
  | PushResult.blocked => none
  | PushResult.done _ => some ()

/-- Whether a completed `ring_push` stored its argument (the branch
`if (!r->stop)` was taken). -/
def ring_push_accepts (r : Ring) : Bool :=
  !(r.count == Q && !r.stop) && !r.stop

/-- One operation issued by some thread on the shared ring. -/
inductive Op where
  | push (v : Int)
  | pop
  | shutdown

/-- A ring together with the history of what its callers observed:
`accepted` lists the arguments of the `ring_push` calls that returned having
found `stop` false, `popped` lists the values handed out by the `ring_pop`
calls that returned `true`, both in the order of the calls. -/
structure History where
  ring : Ring
  accepted : List Int
  popped : List Int

/-- Effect of one operation. A blocked call leaves everything as it is (the
thread keeps waiting; its later completion is a later operation). -/
def History.step (h : History) : Op → History
  | Op.push v =>
    match ring_push h.ring v with
    | PushResult.blocked => h
    | PushResult.done r =>
      if h.ring.stop then { h with ring := r }
      else { h with ring := r, accepted := h.accepted ++ [v] }
  | Op.pop =>
    match ring_pop h.ring with
    | PopResult.blocked => h
    | PopResult.eos r => { h with ring := r }
    | PopResult.item r out => { h with ring := r, popped := h.popped ++ [out] }
  | Op.shutdown => { h with ring := ring_shutdown h.ring }

/-- History of a fresh ring with buffer garbage `b`. -/
def History.init (b : Nat → Int) : History :=
  { ring := Ring.fresh b, accepted := [], popped := [] }

/-- Running a sequence of operations from a given history. -/
def History.run (h : History) (ops : List Op) : History :=
  ops.foldl History.step h

/-- The buffered items read off the array: `buf[tail]`, `buf[(tail+1) % Q]`,
... , `count` of them. -/
def Ring.contents (r : Ring) : List Int :=
  (List.range r.count).map (fun i => r.buf ((r.tail + i) % Q))

/-- Reading `n` cells starting at index `t`, wrapping at `Q`. -/
def readFrom (buf : Nat → Int) : Nat → Nat → List Int
  | _, 0 => []
  | t, n + 1 => buf t :: readFrom buf ((t + 1) % Q) n

/-- Consistency of the indices of a ring. -/
def Ring.Consistent (r : Ring) : Prop :=
  r.count ≤ Q ∧ r.tail < Q ∧ r.head = (r.tail + r.count) % Q

/-- What the caller of `ring_pop` gets back: `none` while blocked, otherwise
the returned `bool`. -/
def PopResult.returnValue : PopResult → Option Bool
  | PopResult.blocked => none
  | PopResult.eos _ => some false
  | PopResult.item _ _ => some true

/-- The loop of `producer`, run with no other thread touching the ring: `n`
more iterations starting at loop index `i`. `none` when a push blocks. -/
def producer_loop (r : Ring) (producer_id : Int) : Nat → Nat → Option Ring
  | _, 0 => some r
  | i, n + 1 =>
    match ring_push r (producer_id * 10000 + (i : Int)) with
    | PushResult.blocked => none
    | PushResult.done r1 => producer_loop r1 producer_id (i + 1) n

/-- Function `producer` of the source, run with no other thread touching the
ring: the ring it leaves and the number of items it prints as produced. -/
def producer (r : Ring) (producer_id items_to_produce : Int) : Option (Ring × Int) :=
  (producer_loop r producer_id 0 items_to_produce.toNat).map (fun r1 => (r1, items_to_produce))

/-- A ring holding the values 10, 11, ... in its first `count` cells. -/
def sampleRing (count : Nat) (stop : Bool) : Ring :=
  { buf := fun i => (i : Int) + 10, head := count % Q, tail := 0, count := count, stop := stop }

/-! ## p5_pipeline.cpp: the barrier -/

/-- The macro `PTHREAD_BARRIER_SERIAL_THREAD`, defined as 1 by the source. -/
def PTHREAD_BARRIER_SERIAL_THREAD : Int := 1

/-- The data members of `struct pthread_barrier_t` (mutex and condition
variable are represented by the atomicity of the steps). -/
structure pthread_barrier_t where
  count : Int
  tripCount : Int
  generation : Int
  deriving DecidableEq

/-- Conversion of an `unsigned int` to `int`, as in `tripCount = count`. -/
def toInt32 (n : Nat) : Int :=
  if n % 4294967296 < 2147483648 then (n % 4294967296 : Nat)
  else ((n % 4294967296 : Nat) : Int) - 4294967296

/-- Function `pthread_barrier_init` of the source: the returned status and the
barrier it leaves behind. The argument is the `unsigned int count`. -/
def pthread_barrier_init (count : Nat) : Int × pthread_barrier_t :=
  (0, { count := 0, tripCount := toInt32 count, generation := 0 })

/-- How far a call of `pthread_barrier_wait` gets in its first critical
section: it has returned `ret`, or it sits in `pthread_cond_wait` inside the
loop `while (gen == barrier->generation)` with the captured value `gen`. -/
inductive WaitEntry where
  | returned (b : pthread_barrier_t) (ret : Int)
  | waiting (b : pthread_barrier_t) (gen : Int)
  deriving DecidableEq

/-- Function `pthread_barrier_wait` of the source, from `pthread_mutex_lock`
up to its first return or first `pthread_cond_wait`. -/
def pthread_barrier_wait (b : pthread_barrier_t) : WaitEntry :=
  let gen := b.generation
  let b1 : pthread_barrier_t := { b with count := b.count + 1 }
  if b1.count == b1.tripCount then
    WaitEntry.returned { b1 with generation := b1.generation + 1, count := 0 }
      PTHREAD_BARRIER_SERIAL_THREAD
  else if gen == b1.generation then
    WaitEntry.waiting b1 gen
  else
    WaitEntry.returned b1 0

/-- A waiter of `pthread_barrier_wait` that wakes up inside
`pthread_cond_wait` (by the broadcast or spuriously) tests the loop condition
again: `none` when it goes back to waiting, `some 0` when it leaves the loop
and returns 0. The barrier is not modified. -/
def pthread_barrier_wait_resume (b : pthread_barrier_t) (gen : Int) : Option Int :=
  if gen == b.generation then none else some 0

/-- The barrier left behind by the first critical section of a call. -/
def WaitEntry.barrier : WaitEntry → pthread_barrier_t
  | WaitEntry.returned b _ => b
  | WaitEntry.waiting b _ => b

/-- The barrier after one more participant has arrived at
`pthread_barrier_wait`. -/
def arrive (b : pthread_barrier_t) : pthread_barrier_t :=
  (pthread_barrier_wait b).barrier

/-- The barrier after `k` arrivals (waiters that wake up do not modify it). -/
def arrivals (b : pthread_barrier_t) : Nat → pthread_barrier_t
  | 0 => b
  | k + 1 => arrive (arrivals b k)

/-- Where a participant is with respect to `pthread_barrier_wait`: outside of
it, or inside its wait loop with the generation captured on entry. -/
inductive Phase where
  | outside
  | inWait (gen : Int)
  deriving DecidableEq

/-- The barrier, the participants (numbered), and the history `entered` of the
generations captured by the calls made so far, oldest first. -/
structure BarrierSystem where
  barrier : pthread_barrier_t
  phase : Nat → Phase
  entered : List Int

/-- A scheduling event: participant `i` calls `pthread_barrier_wait`, or
participant `i` wakes up inside the wait loop. -/
inductive Event where
  | call (i : Nat)
  | wake (i : Nat)

/-- Replacing the phase of participant `i`. -/
def setPhase (f : Nat → Phase) (i : Nat) (p : Phase) : Nat → Phase :=
  fun j => if j = i then p else f j

/-- One step of the system. Events that cannot happen (a call by a participant
that is inside `wait()`, a wake-up of one that is outside) change nothing. -/
def BarrierSystem.step (s : BarrierSystem) : Event → BarrierSystem
  | Event.call i =>
    match s.phase i with
    | Phase.inWait _ => s
    | Phase.outside =>
      match pthread_barrier_wait s.barrier with
      | WaitEntry.returned b _ =>
        { barrier := b, phase := s.phase, entered := s.entered ++ [s.barrier.generation] }
      | WaitEntry.waiting b gen =>
        { barrier := b, phase := setPhase s.phase i (Phase.inWait gen),
          entered := s.entered ++ [s.barrier.generation] }
  | Event.wake i =>
    match s.phase i with
    | Phase.outside => s
    | Phase.inWait gen =>
      match pthread_barrier_wait_resume s.barrier gen with
      | none => s
      | some _ => { s with phase := setPhase s.phase i Phase.outside }

/-- The generation captured by the participant that event `e` releases from
the wait loop in state `s`, if `e` is such a release. -/
def BarrierSystem.released (s : BarrierSystem) : Event → Option Int
  | Event.call _ => none
  | Event.wake i =>
    match s.phase i with
    | Phase.outside => none
    | Phase.inWait gen =>
      match pthread_barrier_wait_resume s.barrier gen with
      | none => none
      | some _ => some gen

/-- The system right after `pthread_barrier_init(&barrier, NULL, n)`, all
participants outside of `wait()`. -/
def BarrierSystem.init (n : Nat) : BarrierSystem :=
  { barrier := (pthread_barrier_init n).2, phase := fun _ => Phase.outside, entered := [] }

/-- Running a schedule. -/
def BarrierSystem.run (s : BarrierSystem) (es : List Event) : BarrierSystem :=
  es.foldl BarrierSystem.step s

/-! ## p5_pipeline.cpp: the stages of the lock-step pipeline

A `std::vector<int>` is a list of integers; its `size()` is taken to fit an
`int` (the vectors of the program hold a few thousand elements). -/

/-- The constant `const int TICKS = 100`. -/
def TICKS : Int := 100

/-- The constant `const int BUFFER_SIZE = 50`. -/
def BUFFER_SIZE : Int := 50

/-- The data members of `struct PipelineData` that the stages use
(`processed_data` is never touched by a stage; the mutexes are represented by
the atomicity of the steps). -/
structure PipelineData where
  raw_data : List Int
  filtered_data : List Int
  final_result : Int
  deriving DecidableEq

/-- The loop `for (int i = 0; i < take_count; i++)
to_process.push_back(raw_data[i])` of `stage_filter`. -/
def copy_front (raw_data : List Int) (take_count : Int) : List Int :=
  (List.range take_count.toNat).foldl
    (fun to_process i => to_process ++ [raw_data.getD i 0]) []

/-- The first critical section of one tick of `stage_filter`: `take_count` is
the minimum of the size and `BUFFER_SIZE`, the first `take_count` elements are
copied to `to_process` and erased from `raw_data`. Result: `to_process` and
the `raw_data` left behind. -/
def stage_filter_take (raw_data : List Int) : List Int × List Int :=
  let take_count : Int := min (raw_data.length : Int) BUFFER_SIZE
  (copy_front raw_data take_count, raw_data.drop take_count.toNat)

/-- The test `val % 2 == 0 && val > 20` of `stage_filter` and `queue_filter`;
`%` of C++ truncates towards zero. -/
def keeps (val : Int) : Bool :=
  val.tmod 2 == 0 && decide (val > 20)

/-- The loop of `stage_filter` that builds the local vector `filtered`. -/
def stage_filter_select (to_process : List Int) : List Int :=
  to_process.foldl (fun filtered val => if keeps val then filtered ++ [val] else filtered) []

/-- The second critical section of one tick of `stage_filter`: every element
of `filtered` is pushed to the back of `filtered_data`. -/
def stage_filter_append (filtered_data filtered : List Int) : List Int :=
  filtered.foldl (fun fd val => fd ++ [val]) filtered_data

/-- One tick of `stage_filter` run without interruption. -/
def stage_filter_tick (d : PipelineData) : PipelineData :=
  { d with
    raw_data := (stage_filter_take d.raw_data).2
    filtered_data :=
      stage_filter_append d.filtered_data (stage_filter_select (stage_filter_take d.raw_data).1) }

/-- One tick of `stage_reducer`: `to_reduce` is a copy of `filtered_data`,
which is cleared; the elements are added up in `local_sum`, which is added to
`final_result`. -/
def stage_reducer_tick (d : PipelineData) : PipelineData :=
  let to_reduce := d.filtered_data
  let local_sum : Int := to_reduce.foldl (fun acc val => acc + val) 0
  { d with filtered_data := [], final_result := d.final_result + local_sum }

/-- The batch of tick `t` of `stage_generator`: `BUFFER_SIZE` consecutive
results of `dis(gen)`, where `draws k` stands for the result of call number
`k` (a number from 1 to 100 decided by the random engine). -/
def batch (draws : Nat → Int) (t : Nat) : List Int :=
  (List.range BUFFER_SIZE.toNat).map (fun i => draws (BUFFER_SIZE.toNat * t + i))

/-- One tick of `stage_generator`: the batch of tick `t` is pushed to the back
of `raw_data`. -/
def stage_generator_tick (draws : Nat → Int) (t : Nat) (d : PipelineData) : PipelineData :=
  { d with raw_data := d.raw_data ++ batch draws t }

/-- The critical sections of the three stages: the Generator's append, the two
of the Filter (take from `raw_data`, append to `filtered_data`), and the
Reducer's drain together with its private update of `final_result`. -/
inductive StageStep where
  | generate
  | filter_take
  | filter_append
  | reduce
  deriving DecidableEq

/-- The shared `pipeline_data`, the Generator's loop counter `t`, and the local
vector `to_process` of the Filter while it is between its two critical
sections. -/
structure LockStep where
  data : PipelineData
  t_generator : Nat
  to_process : Option (List Int)
  deriving DecidableEq

/-- The state before any stage has run: the constructor `PipelineData()`. -/
def LockStep.init : LockStep :=
  { data := { raw_data := [], filtered_data := [], final_result := 0 },
    t_generator := 0, to_process := none }

/-- Effect of one critical section. A Filter step that is out of turn changes
nothing. -/
def LockStep.step (draws : Nat → Int) (s : LockStep) : StageStep → LockStep
  | StageStep.generate =>
    { data := stage_generator_tick draws s.t_generator s.data
      t_generator := s.t_generator + 1
      to_process := s.to_process }
  | StageStep.filter_take =>
    match s.to_process with
    | some _ => s
    | none =>
      { data :=
          { raw_data := (stage_filter_take s.data.raw_data).2
            filtered_data := s.data.filtered_data
            final_result := s.data.final_result }
        t_generator := s.t_generator
        to_process := some (stage_filter_take s.data.raw_data).1 }
  | StageStep.filter_append =>
    match s.to_process with
    | none => s
    | some tp =>
      { data :=
          { raw_data := s.data.raw_data
            filtered_data := stage_filter_append s.data.filtered_data (stage_filter_select tp)
            final_result := s.data.final_result }
        t_generator := s.t_generator
        to_process := none }
  | StageStep.reduce =>
    { data := stage_reducer_tick s.data
      t_generator := s.t_generator
      to_process := s.to_process }

/-- Running a sequence of critical sections. -/
def LockStep.run (draws : Nat → Int) (s : LockStep) (l : List StageStep) : LockStep :=
  l.foldl (LockStep.step draws) s

/-- Sum of the values of a list that pass the Filter's test. -/
def keptSum (l : List Int) : Int :=
  (l.filter keeps).sum

/-- The largest `int`. -/
def INT_MAX : Int := 2147483647

/-- The smallest `int`. -/
def INT_MIN : Int := -2147483648

/-- The value left in an `int` by an operation whose exact result is `x`: `x`
itself inside the range, the two's complement wrap-around outside of it. -/
def wrapInt (x : Int) : Int :=
  (x + 2147483648) % 4294967296 - 2147483648

/-- Whether `x` is a value of `int`. -/
def IsInt (x : Int) : Prop :=
  INT_MIN ≤ x ∧ x ≤ INT_MAX

/-- The guarded transfer inside one iteration of `transfer_worker`, executed
while both mutexes are held: `if (from->value >= amount)` the amount is taken
from `from` (here `src`) by `-=` and then added to `to` (here `dst`) by `+=`,
both on `int`. -/
def transfer_step (value : Nat → Int) (src dst : Nat) (amount : Int) : Nat → Int :=
  if value src >= amount then
    let v1 : Nat → Int := fun i => if i = src then wrapInt (value i - amount) else value i
    fun i => if i = dst then wrapInt (v1 i + amount) else v1 i
  else
    value

/-- One iteration of the loop of `transfer_worker`. The two mutexes are locked
first; when `from` and `to` are the same resource the second lock is the one
already held and the call never returns (`none`). -/
def transfer_iteration (value : Nat → Int) (src dst : Nat) (amount : Int) :
    Option (Nat → Int) :=
  if src = dst then none else some (transfer_step value src dst amount)

/-- The balances set by `test_bank_transfer`: 1000, 500 and 750 for the
accounts with ids 1, 2 and 3. -/
def bankInit : Nat → Int :=
  fun i => if i = 1 then 1000 else if i = 2 then 500 else if i = 3 then 750 else 0

/-- The accounts of `test_bank_transfer`. -/
def bankAccounts : Finset Nat := {1, 2, 3}

/-- The data members of `struct QueuePipeline` (mutexes and condition
variables are represented by the atomicity of the steps). -/
structure QueuePipeline where
  stage1_to_stage2 : List Int
  stage2_to_stage3 : List Int
  pipeline_done : Bool
  result : Int
  deriving DecidableEq

/-- Where `queue_filter` is: at the top of its loop (possibly waiting on
`queue1_cond`), holding an item taken from queue 1, out of the loop and about
to run its final critical section, or returned. -/
inductive FilterPc where
  | atLoop
  | holding (data : Int)
  | closing
  | returned
  deriving DecidableEq

/-- Where `queue_consumer` is: at the top of its loop (possibly waiting on
`queue2_cond`), holding an item taken from queue 2, or returned. -/
inductive ConsumerPc where
  | atLoop
  | holding (data : Int)
  | returned
  deriving DecidableEq

/-- The global `queue_pipeline` and the three threads of `test_queue_pipeline`:
the loop counter `i` of `queue_producer` and whether it has returned, and the
positions of `queue_filter` and `queue_consumer`. -/
structure QueueSystem where
  queue_pipeline : QueuePipeline
  producer_i : Nat
  producer_returned : Bool
  filter : FilterPc
  consumer : ConsumerPc
  deriving DecidableEq

/-- Number of items of `queue_producer`: `TICKS * BUFFER_SIZE`. -/
def ITEMS : Nat := (TICKS * BUFFER_SIZE).toNat

/-- The state when the threads are created: the constructor
`QueuePipeline()`. -/
def QueueSystem.init : QueueSystem :=
  { queue_pipeline :=
      { stage1_to_stage2 := [], stage2_to_stage3 := [], pipeline_done := false, result := 0 }
    producer_i := 0
    producer_returned := false
    filter := FilterPc.atLoop
    consumer := ConsumerPc.atLoop }

/-- Next critical section of `queue_producer`: while `i < TICKS * BUFFER_SIZE`
it pushes `dis(gen)` (here `draws i`) to queue 1; after the loop it sets
`pipeline_done` and returns. -/
def queue_producer (draws : Nat → Int) (s : QueueSystem) : QueueSystem :=
  if s.producer_returned then s
  else if s.producer_i < ITEMS then
    { s with
      queue_pipeline :=
        { s.queue_pipeline with
          stage1_to_stage2 := s.queue_pipeline.stage1_to_stage2 ++ [draws s.producer_i] }
      producer_i := s.producer_i + 1 }
  else
    { s with
      queue_pipeline := { s.queue_pipeline with pipeline_done := true }
      producer_returned := true }

/-- Next step of `queue_filter`. At the top of the loop: with queue 1 empty and
`pipeline_done` false it waits (no change); with queue 1 empty and
`pipeline_done` true it leaves the loop; otherwise it takes the front of
queue 1. Holding an item, it pushes it to queue 2 if it passes the test. After
the loop it sets `pipeline_done` and returns. -/
def queue_filter (s : QueueSystem) : QueueSystem :=
  match s.filter with
  | FilterPc.atLoop =>
    match s.queue_pipeline.stage1_to_stage2 with
    | [] => if s.queue_pipeline.pipeline_done then { s with filter := FilterPc.closing } else s
    | data :: rest =>
      { s with
        queue_pipeline := { s.queue_pipeline with stage1_to_stage2 := rest }
        filter := FilterPc.holding data }
  | FilterPc.holding data =>
    if keeps data then
      { s with
        queue_pipeline :=
          { s.queue_pipeline with
            stage2_to_stage3 := s.queue_pipeline.stage2_to_stage3 ++ [data] }
        filter := FilterPc.atLoop }
    else { s with filter := FilterPc.atLoop }
  | FilterPc.closing =>
    { s with
      queue_pipeline := { s.queue_pipeline with pipeline_done := true }
      filter := FilterPc.returned }
  | FilterPc.returned => s

/-- Next step of `queue_consumer`. At the top of the loop: with queue 2 empty
and `pipeline_done` false it waits (no change); with queue 2 empty and
`pipeline_done` true it leaves the loop and returns; otherwise it takes the
front of queue 2. Holding an item, it adds it to `result`. -/
def queue_consumer (s : QueueSystem) : QueueSystem :=
  match s.consumer with
  | ConsumerPc.atLoop =>
    match s.queue_pipeline.stage2_to_stage3 with
    | [] => if s.queue_pipeline.pipeline_done then { s with consumer := ConsumerPc.returned } else s
    | data :: rest =>
      { s with
        queue_pipeline := { s.queue_pipeline with stage2_to_stage3 := rest }
        consumer := ConsumerPc.holding data }
  | ConsumerPc.holding data =>
    { s with
      queue_pipeline := { s.queue_pipeline with result := s.queue_pipeline.result + data }
      consumer := ConsumerPc.atLoop }
  | ConsumerPc.returned => s

/-- The threads of `test_queue_pipeline`. -/
inductive Thread where
  | producer
  | filter
  | consumer
  deriving DecidableEq

/-- The thread chosen by the scheduler takes its next step. -/
def QueueSystem.step (draws : Nat → Int) (s : QueueSystem) : Thread → QueueSystem
  | Thread.producer => queue_producer draws s
  | Thread.filter => queue_filter s
  | Thread.consumer => queue_consumer s

/-- Running a schedule. -/
def QueueSystem.run (draws : Nat → Int) (s : QueueSystem) (sched : List Thread) : QueueSystem :=
  sched.foldl (QueueSystem.step draws) s

/-- All three threads have returned: `test_queue_pipeline` can join them. -/
def QueueSystem.terminated (s : QueueSystem) : Bool :=
  s.producer_returned && s.filter == FilterPc.returned && s.consumer == ConsumerPc.returned

/-- The items produced by `queue_producer`, in order. -/
def producedItems (draws : Nat → Int) : List Int :=
  (List.range ITEMS).map draws

/-- The producer runs to its end, then the consumer takes one step. -/
def scheduleProducerFirst : List Thread :=
  List.replicate (ITEMS + 1) Thread.producer ++ [Thread.consumer]

/-- The schedule `scheduleProducerFirst` followed by the filter running to its
end. -/
def scheduleProducerConsumerFilter : List Thread :=
  scheduleProducerFirst ++ List.replicate (2 * ITEMS + 2) Thread.filter

/-! ## p5_pipeline.cpp: the shared set-up -/

/-- A line written to the log file: the opening line of `init_shared`, or a
line of `log_stage_activity` (its time stamp is left out). -/
inductive LogLine where
  | started
  | activity (stage_id tick : Int) (text : String)
  deriving DecidableEq

/-- The globals touched by `init_shared`: `log_file` (`none` is the null
pointer, otherwise the lines written to the open file so far) and what has
been printed on the console. -/
structure SharedResources where
  log_file : Option (List LogLine)
  console : List String
  deriving DecidableEq

/-- The globals before `init_shared` has run: `log_file = nullptr`. -/
def SharedResources.start : SharedResources :=
  { log_file := none, console := [] }

/-- Function `init_shared` of the source. `fopen_ok` tells whether
`fopen("pipeline.log", "w")` returns a file. The function is `void`. -/
def init_shared (fopen_ok : Bool) (s : SharedResources) : SharedResources :=
  let log_file : Option (List LogLine) := if fopen_ok then some [] else none
  let log_file : Option (List LogLine) :=
    match log_file with
    | some lines => some (lines ++ [LogLine.started])
    | none => none
  { log_file := log_file, console := s.console ++ ["Shared resources initialized"] }

/-- Function `log_stage_activity` of the source: the line is written only
`if (log_file)`. -/
def log_stage_activity (s : SharedResources) (stage_id tick : Int) (text : String) :
    SharedResources :=
  match s.log_file with
  | some lines => { s with log_file := some (lines ++ [LogLine.activity stage_id tick text]) }
  | none => s

/-- The states of a `pthread_once_t`: `PTHREAD_ONCE_INIT`, the routine is
running, the routine has returned. -/
inductive OnceFlag where
  | init
  | inProgress
  | done
  deriving DecidableEq

/-- Where a stage function is at its start: created and about to call
`pthread_once`, running `init_shared` inside `pthread_once`, blocked inside
`pthread_once` while another stage runs the routine, or past the call and in
its tick loop. -/
inductive StagePc where
  | created
  | initialising
  | blockedInOnce
  | inLoop
  deriving DecidableEq

/-- The global `once_flag`, the shared resources, the stages (numbered), and
the number of times `init_shared` has been entered. -/
structure Startup where
  once_flag : OnceFlag
  shared : SharedResources
  stage : Nat → StagePc
  executions : Nat

/-- The state at the start of a pipeline run: `once_flag = PTHREAD_ONCE_INIT`
and no stage has called `pthread_once` yet. -/
def Startup.init : Startup :=
  { once_flag := OnceFlag.init, shared := SharedResources.start,
    stage := fun _ => StagePc.created, executions := 0 }

/-- Replacing the position of stage `i`. -/
def setStage (f : Nat → StagePc) (i : Nat) (p : StagePc) : Nat → StagePc :=
  fun j => if j = i then p else f j

/-- Modelled from the spec: `pthread_once` is a function of the C library and
not part of the sources; its behaviour is taken from the One-Time Initializer
of the specification. The first caller executes the action, no caller returns
before the action has completed, later calls do nothing. The step of stage `i`
at the start of its stage function, `pthread_once(&once_flag, init_shared)`
followed by the tick loop: a created stage calls `pthread_once` and, by the
flag, starts `init_shared`, blocks, or returns at once; the stage running
`init_shared` finishes it, sets the flag and returns; a blocked stage returns
once the flag says the action has completed; a stage in its loop stays
there. -/
def Startup.step (fopen_ok : Bool) (s : Startup) (i : Nat) : Startup :=
  match s.stage i with
  | StagePc.created =>
    match s.once_flag with
    | OnceFlag.init =>
      { s with once_flag := OnceFlag.inProgress
               stage := setStage s.stage i StagePc.initialising
               executions := s.executions + 1 }
    | OnceFlag.inProgress => { s with stage := setStage s.stage i StagePc.blockedInOnce }
    | OnceFlag.done => { s with stage := setStage s.stage i StagePc.inLoop }
  | StagePc.initialising =>
    { s with once_flag := OnceFlag.done
             shared := init_shared fopen_ok s.shared
             stage := setStage s.stage i StagePc.inLoop }
  | StagePc.blockedInOnce =>
    match s.once_flag with
    | OnceFlag.done => { s with stage := setStage s.stage i StagePc.inLoop }
    | _ => s
  | StagePc.inLoop => s

/-- Running a schedule: the list names the stage that takes each step. -/
def Startup.run (fopen_ok : Bool) (s : Startup) (sched : List Nat) : Startup :=
  sched.foldl (Startup.step fopen_ok) s

/-- What holds in every state of a pipeline run: before the first call nothing
has happened, afterwards `init_shared` has been entered exactly once, and a
stage is in its loop only when the routine has returned, which has printed its
line once. -/
def Startup.Good (s : Startup) : Prop :=
  (s.once_flag = OnceFlag.init →
    s.executions = 0 ∧ s.shared = SharedResources.start ∧ ∀ i, s.stage i = StagePc.created) ∧
  (s.once_flag = OnceFlag.inProgress →
    s.executions = 1 ∧ s.shared = SharedResources.start ∧ ∀ i, s.stage i ≠ StagePc.inLoop) ∧
  (s.once_flag = OnceFlag.done →
    s.executions = 1 ∧ s.shared.console = ["Shared resources initialized"] ∧
      ∀ i, s.stage i ≠ StagePc.initialising) ∧
  (s.once_flag = OnceFlag.inProgress →
    ∀ i j, s.stage i = StagePc.initialising → s.stage j = StagePc.initialising → i = j)

/-- Two start-up states that differ at most in the log file. -/
def Startup.Similar (s1 s2 : Startup) : Prop :=
  s1.once_flag = s2.once_flag ∧ s1.stage = s2.stage ∧
    s1.shared.console = s2.shared.console

/-! ## p3_rw.cpp: the shared hash map

A chain `Node* -> Node* -> ... -> nullptr` is the list of its nodes, each with
its `k` and `v`; the array `Node* b[1024]` is a map from indices to chains. -/

/-- The constant `const int NBUCKET = 1024`. -/
def NBUCKET : Nat := 1024

/-- The members `k` and `v` of `struct Node` (`next` is the rest of the
list). -/
structure Node where
  k : Int
  v : Int
  deriving DecidableEq

/-- The member `b` of `struct MapRW` (the read-write lock is represented by
the atomicity of the operations). -/
structure MapRW where
  b : Nat → List Node

/-- The member `b` of `struct MapMutex` (the mutex is represented by the
atomicity of the operations). -/
structure MapMutex where
  b : Nat → List Node

/-- The constructor `MapRW()`: every bucket is `nullptr`. -/
def MapRW.empty : MapRW :=
  { b := fun _ => [] }

/-- The constructor `MapMutex()`: every bucket is `nullptr`. -/
def MapMutex.empty : MapMutex :=
  { b := fun _ => [] }

/-- The method `MapRW::hash`: `((unsigned int)k) % NBUCKET`. The cast takes
`k` modulo `2 ^ 32`. -/
def MapRW.hash (_m : MapRW) (k : Int) : Nat :=
  (k % 4294967296).toNat % NBUCKET

/-- The method `MapMutex::hash`: `((unsigned int)k) % NBUCKET`. -/
def MapMutex.hash (_m : MapMutex) (k : Int) : Nat :=
  (k % 4294967296).toNat % NBUCKET

/-- The loop `while (curr)` of `map_get_rw` and `map_get_mutex`: the value of
the first node with key `k`, or `result` as it was when the chain ends. -/
def chain_get : List Node → Int → Int → Int
  | [], _, result => result
  | curr :: next, k, result => if curr.k == k then curr.v else chain_get next k result

/-- The loop `while (curr)` of `map_put_rw` and `map_put_mutex`: the chain
with `curr->v = v` done at the first node with key `k`, or `none` when the
loop ends without finding the key. -/
def chain_set : List Node → Int → Int → Option (List Node)
  | [], _, _ => none
  | curr :: next, k, v =>
    if curr.k == k then some ({ curr with v := v } :: next)
    else
      match chain_set next k v with
      | some next1 => some (curr :: next1)
      | none => none

/-- Assignment `b[bucket] = chain`. -/
def bucketStore (b : Nat → List Node) (bucket : Nat) (chain : List Node) : Nat → List Node :=
  fun j => if j = bucket then chain else b j

/-- Function `map_get_rw` of the source. -/
def map_get_rw (m : MapRW) (k : Int) : Int :=
  let bucket := m.hash k
  chain_get (m.b bucket) k (-1)

/-- Function `map_put_rw` of the source: the value of an existing key is
overwritten in place, otherwise a new node is put at the head of the bucket. -/
def map_put_rw (m : MapRW) (k v : Int) : MapRW :=
  let bucket := m.hash k
  match chain_set (m.b bucket) k v with
  | some chain => { b := bucketStore m.b bucket chain }
  | none => { b := bucketStore m.b bucket ({ k := k, v := v } :: m.b bucket) }

/-- Function `map_get_mutex` of the source. -/
def map_get_mutex (m : MapMutex) (k : Int) : Int :=
  let bucket := m.hash k
  chain_get (m.b bucket) k (-1)

/-- Function `map_put_mutex` of the source. -/
def map_put_mutex (m : MapMutex) (k v : Int) : MapMutex :=
  let bucket := m.hash k
  match chain_set (m.b bucket) k v with
  | some chain => { b := bucketStore m.b bucket chain }
  | none => { b := bucketStore m.b bucket ({ k := k, v := v } :: m.b bucket) }

/-- A sequence of `map_put_rw` calls, given by their keys and values. -/
def putAllRW (m : MapRW) (puts : List (Int × Int)) : MapRW :=
  puts.foldl (fun m1 p => map_put_rw m1 p.1 p.2) m

/-- A sequence of `map_put_mutex` calls, given by their keys and values. -/
def putAllMutex (m : MapMutex) (puts : List (Int × Int)) : MapMutex :=
  puts.foldl (fun m1 p => map_put_mutex m1 p.1 p.2) m

/-- A map whose bucket 5 holds the keys 5 and 1029 (which collide) and whose
bucket 1023 holds the key -1. -/
def sampleMapRW : MapRW :=
  { b := fun j =>
      if j = 5 then [{ k := 5, v := 50 }, { k := 1029, v := 70 }]
      else if j = 1023 then [{ k := -1, v := 9 }] else [] }

/-- The same content as `sampleMapRW`, as a `MapMutex`. -/
def sampleMapMutex : MapMutex :=
  { b := sampleMapRW.b }

/-! ## p5_pipeline.cpp: the barrier with 32-bit counters -/

/-- Function `pthread_barrier_wait` of the source with the `int` members held
in 32 bits: `count++` and `generation++` leave the wrapped value. Apart from
`wrapInt` this is `pthread_barrier_wait`, with which it agrees as long as the
counters stay in the range of `int`. -/
def pthread_barrier_wait32 (b : pthread_barrier_t) : WaitEntry :=
  let gen := b.generation
  let b1 : pthread_barrier_t := { b with count := wrapInt (b.count + 1) }
  if b1.count == b1.tripCount then
    WaitEntry.returned { b1 with generation := wrapInt (b1.generation + 1), count := 0 }
      PTHREAD_BARRIER_SERIAL_THREAD
  else if gen == b1.generation then
    WaitEntry.waiting b1 gen
  else
    WaitEntry.returned b1 0

/-- The barrier after one more arrival, 32-bit counters. -/
def arrive32 (b : pthread_barrier_t) : pthread_barrier_t :=
  (pthread_barrier_wait32 b).barrier

/-- The barrier after `k` arrivals, 32-bit counters. -/
def arrivals32 (b : pthread_barrier_t) : Nat → pthread_barrier_t
  | 0 => b
  | k + 1 => arrive32 (arrivals32 b k)

/-! ## Invariants -/

/-- What the history of a ring has to satisfy at every moment. -/
def History.Good (h : History) : Prop :=
  h.ring.Consistent ∧ h.accepted = h.popped ++ readFrom h.ring.buf h.ring.tail h.ring.count

/-- What holds in every reachable state of a barrier system with `N` parties:
the rounds before the current one each received exactly `N` calls, the current
round received `count` of them, later rounds none, and every waiter captured a
generation that is not in the future. -/
def BarrierSystem.Good (N : Nat) (s : BarrierSystem) : Prop :=
  s.barrier.tripCount = (N : Int) ∧
  0 ≤ s.barrier.count ∧ s.barrier.count < (N : Int) ∧
  0 ≤ s.barrier.generation ∧
  (∀ g : Int, 0 ≤ g → g < s.barrier.generation → s.entered.count g = N) ∧
  ((s.entered.count s.barrier.generation : Nat) : Int) = s.barrier.count ∧
  (∀ g : Int, s.barrier.generation < g → s.entered.count g = 0) ∧
  (∀ (i : Nat) (g : Int), s.phase i = Phase.inWait g → 0 ≤ g ∧ g ≤ s.barrier.generation)

/-! ## Facts about the ring -/

theorem readFrom_eq_map (buf : Nat → Int) (n : Nat) :
    ∀ t, t < Q → readFrom buf t n = (List.range n).map (fun i => buf ((t + i) % Q)) := by
  induction n with
  | zero => intro t _; rfl
  | succ n ih =>
    intro t ht
    have hq : (t + 1) % Q < Q := Nat.mod_lt _ (by decide)
    rw [readFrom, ih _ hq, List.range_succ_eq_map, List.map_cons, List.map_map]
    congr 1
    · rw [Nat.add_zero, Nat.mod_eq_of_lt ht]
    · apply List.map_congr_left
      intro i _
      simp only [Function.comp, Q] at *
      congr 1
      omega

theorem readFrom_store_snoc (buf : Nat → Int) (v : Int) (n : Nat) :
    ∀ t, t < Q → n < Q →
      readFrom (bufStore buf ((t + n) % Q) v) t (n + 1) = readFrom buf t n ++ [v] := by
  induction n with
  | zero =>
    intro t ht _
    simp [readFrom, bufStore, Nat.mod_eq_of_lt ht]
  | succ n ih =>
    intro t ht hn
    have hq : (t + 1) % Q < Q := Nat.mod_lt _ (by decide)
    have hidx : (t + (n + 1)) % Q = ((t + 1) % Q + n) % Q := by
      simp only [Q]; omega
    have hne : ¬ t = ((t + 1) % Q + n) % Q := by
      simp only [Q] at *; omega
    rw [readFrom, hidx, ih _ hq (by omega)]
    rw [readFrom]
    simp only [bufStore, if_neg hne, List.cons_append]

theorem History.init_good (b : Nat → Int) : (History.init b).Good := by
  refine ⟨⟨?_, ?_, ?_⟩, ?_⟩ <;> simp [History.init, Ring.fresh, Q, readFrom]

theorem History.step_good (h : History) (op : Op) (hg : h.Good) : (h.step op).Good := by
  obtain ⟨⟨hc, ht, hh⟩, hacc⟩ := hg
  cases op with
  | push v =>
    unfold History.step ring_push
    by_cases hs : h.ring.stop = true
    · simp [hs]
      exact ⟨⟨hc, ht, hh⟩, hacc⟩
    · simp only [Bool.not_eq_true] at hs
      by_cases hfull : h.ring.count = Q
      · simp [hs, hfull]
        exact ⟨⟨hfull ▸ hc, ht, hh⟩, hfull ▸ hacc⟩
      · have hlt : h.ring.count < Q := lt_of_le_of_ne hc hfull
        simp [hs, hfull]
        refine ⟨⟨?_, ht, ?_⟩, ?_⟩
        · simp only [Q, SIZE_MOD] at *; omega
        · simp only [Q, SIZE_MOD] at *; omega
        · have hcnt : (h.ring.count + 1) % SIZE_MOD = h.ring.count + 1 := by
            simp only [Q, SIZE_MOD] at *; omega
          simp only [hcnt, hh, hacc]
          rw [readFrom_store_snoc _ _ _ _ ht hlt, List.append_assoc]
  | pop =>
    unfold History.step ring_pop
    by_cases hz : h.ring.count = 0
    · cases hs : h.ring.stop <;> simp [hz, hs] <;> exact ⟨⟨hc, ht, hh⟩, hacc⟩
    · obtain ⟨n, hn⟩ := Nat.exists_eq_succ_of_ne_zero hz
      simp [hz]
      refine ⟨⟨?_, ?_, ?_⟩, ?_⟩
      · simp only [Q, SIZE_MOD] at *; omega
      · simp only [Q, SIZE_MOD] at *; omega
      · simp only [Q, SIZE_MOD] at *; omega
      · have htl : (h.ring.tail + 1) % SIZE_MOD = h.ring.tail + 1 := by
          simp only [Q, SIZE_MOD] at *; omega
        rw [hacc, hn, htl]
        simp [readFrom]
  | shutdown => exact ⟨⟨hc, ht, hh⟩, hacc⟩

theorem History.run_good (ops : List Op) : ∀ h : History, h.Good → (h.run ops).Good := by
  induction ops with
  | nil => intro h hg; exact hg
  | cons op ops ih => intro h hg; exact ih _ (History.step_good h op hg)

theorem producer_loop_stopped (r : Ring) (producer_id : Int) (hs : r.stop = true) (n : Nat) :
    ∀ i, producer_loop r producer_id i n = some r := by
  induction n with
  | zero => intro i; rfl
  | succ n ih =>
    intro i
    simp only [producer_loop, ring_push, hs]
    simpa using ih (i + 1)

/-! ## The claims about the ring -/

/-- C1: for every sequence of `ring_push`, `ring_pop` and `ring_shutdown`
operations on a fresh ring, the values handed out by the successful pops are
a prefix of the values accepted by the pushes, in the same order, and the
accepted values not popped yet are exactly the cells `buf[tail]`,
`buf[(tail+1) % Q]`, ... (`count` of them): nothing is lost, duplicated or
reordered. -/
theorem C1_ring_fifo (b : Nat → Int) (ops : List Op) :
    ((History.init b).run ops).popped <+: ((History.init b).run ops).accepted ∧
    ((History.init b).run ops).accepted =
      ((History.init b).run ops).popped ++
        (List.range ((History.init b).run ops).ring.count).map
          (fun i => ((History.init b).run ops).ring.buf
            ((((History.init b).run ops).ring.tail + i) % Q)) := by
  obtain ⟨⟨_, ht, _⟩, hacc⟩ := History.run_good ops _ (History.init_good b)
  rw [readFrom_eq_map _ _ _ ht] at hacc
  exact ⟨⟨_, hacc.symm⟩, hacc⟩

/-- C2: for every sequence of operations on a fresh ring, after every
operation (that is, after every initial part of the sequence) the number of
buffered items is at most `Q = 1024` (and at least 0, being a `size_t`); a
`ring_push` on a full ring that is not stopped does not complete and changes
nothing. -/
theorem C2_ring_bounded (b : Nat → Int) (ops : List Op) (n : Nat) (v : Int) :
    Q = 1024 ∧
    0 ≤ ((History.init b).run (ops.take n)).ring.count ∧
    ((History.init b).run (ops.take n)).ring.count ≤ Q ∧
    (∀ (buf : Nat → Int) (hd tl : Nat),
      ring_push { buf := buf, head := hd, tail := tl, count := Q, stop := false } v
        = PushResult.blocked) ∧
    (∀ (cells : Nat → Int) (hd tl : Nat) (acc pop : List Int),
      History.step
        { ring := { buf := cells, head := hd, tail := tl, count := Q, stop := false },
          accepted := acc, popped := pop } (Op.push v)
        = { ring := { buf := cells, head := hd, tail := tl, count := Q, stop := false },
            accepted := acc, popped := pop }) := by
  obtain ⟨⟨hc, _, _⟩, _⟩ := History.run_good (ops.take n) _ (History.init_good b)
  refine ⟨rfl, Nat.zero_le _, hc, ?_, ?_⟩
  · intro buf hd tl
    simp [ring_push]
  · intro cells hd tl acc pop
    simp [History.step, ring_push]

/-- C8: on a ring whose `stop` flag is set, full or not, `ring_push` returns
leaving `buf`, `head`, `tail` and `count` (the whole ring) unchanged; this is
the state of a ring after `ring_shutdown`. -/
theorem C8_push_after_shutdown (r : Ring) (v : Int) (hs : r.stop = true) :
    ring_push r v = PushResult.done r ∧
    ∀ r0 : Ring, ring_push (ring_shutdown r0) v = PushResult.done (ring_shutdown r0) := by
  refine ⟨?_, ?_⟩
  · simp [ring_push, hs]
  · intro r0
    simp [ring_push, ring_shutdown]

/-- Instance of C8 on a full, stopped ring. -/
theorem C8_push_after_shutdown_witness :
    (sampleRing 1024 true).stop = true ∧
    ring_push (sampleRing 1024 true) 7 = PushResult.done (sampleRing 1024 true) :=
  ⟨rfl, (C8_push_after_shutdown (sampleRing 1024 true) 7 rfl).1⟩

/-- C9, refuted as stated: `ring_push` is `void`; the caller of a push that
was rejected by a stopped ring (ring unchanged, item dropped) sees exactly
what the caller of an accepted push sees. -/
theorem C9_no_closed_error :
    ring_push_return (sampleRing 2 true) 7 = ring_push_return (sampleRing 2 false) 7 ∧
    (match ring_push (sampleRing 2 true) 7 with
      | PushResult.done r => r.count = 2 ∧ r.head = 2
      | PushResult.blocked => False) ∧
    (match ring_push (sampleRing 2 false) 7 with
      | PushResult.done r => r.count = 3 ∧ r.buf 2 = 7
      | PushResult.blocked => False) := by
  refine ⟨rfl, ?_, ?_⟩
  · simp [ring_push, sampleRing, Q]
  · simp [ring_push, sampleRing, Q, SIZE_MOD, bufStore]

/-- C9 as amended: `ring_push` returns nothing. On a stopped ring it returns
with the ring unchanged, its caller observes the same as the caller of any
other completed push, and `producer` run on a stopped ring stores nothing and
still reports all its items as produced. -/
theorem C9_rejected_push_is_silent (r r1 : Ring) (v v1 producer_id items : Int)
    (hs : r.stop = true) (hc : ring_push r1 v1 ≠ PushResult.blocked) :
    ring_push r v = PushResult.done r ∧
    ring_push_return r v = ring_push_return r1 v1 ∧
    producer r producer_id items = some (r, items) := by
  refine ⟨?_, ?_, ?_⟩
  · simp [ring_push, hs]
  · have h1 : ring_push_return r v = some () := by simp [ring_push_return, ring_push, hs]
    rw [h1]
    unfold ring_push_return
    cases hp : ring_push r1 v1 with
    | blocked => exact absurd hp hc
    | done _ => rfl
  · simp [producer, producer_loop_stopped r producer_id hs]

/-- Instance of the amended C9: a stopped ring against an accepting one. -/
theorem C9_rejected_push_is_silent_witness :
    (sampleRing 2 true).stop = true ∧
    ring_push (sampleRing 2 false) 8 ≠ PushResult.blocked ∧
    ring_push_return (sampleRing 2 true) 7 = ring_push_return (sampleRing 2 false) 8 ∧
    producer (sampleRing 2 true) 1 5 = some (sampleRing 2 true, 5) :=
  have hc : ring_push (sampleRing 2 false) 8 ≠ PushResult.blocked := by
    simp [ring_push, sampleRing, Q]
  ⟨rfl, hc,
    (C9_rejected_push_is_silent (sampleRing 2 true) (sampleRing 2 false) 7 8 1 5 rfl hc).2.1,
    (C9_rejected_push_is_silent (sampleRing 2 true) (sampleRing 2 false) 7 8 1 5 rfl hc).2.2⟩

/-- C10: in every ring state in which `ring_pop` completes, it returns `false`
exactly when `count = 0` and `stop` is set, and then the ring is unchanged;
otherwise `count > 0` and it returns `true`, hands out the front element
`buf[tail]` and decreases `count` by exactly one (advancing `tail`, leaving
`buf`, `head` and `stop` alone). -/
theorem C10_ring_pop (r : Ring) (hc : ring_pop r ≠ PopResult.blocked) :
    ((ring_pop r).returnValue = some false ↔ (r.count = 0 ∧ r.stop = true)) ∧
    ((r.count = 0 ∧ r.stop = true) → ring_pop r = PopResult.eos r) ∧
    (¬ (r.count = 0 ∧ r.stop = true) →
      0 < r.count ∧
      (ring_pop r).returnValue = some true ∧
      ∃ r1, ring_pop r = PopResult.item r1 (r.buf r.tail) ∧
        r1.count + 1 = r.count ∧ r1.tail = (r.tail + 1) % SIZE_MOD % Q ∧
        r1.buf = r.buf ∧ r1.head = r.head ∧ r1.stop = r.stop) := by
  by_cases hz : r.count = 0
  · cases hs : r.stop
    · exact absurd (by simp [ring_pop, hz, hs]) hc
    · simp [ring_pop, hz, hs, PopResult.returnValue]
  · have hpos : 0 < r.count := Nat.pos_of_ne_zero hz
    have hp : ring_pop r = PopResult.item
        { r with tail := (r.tail + 1) % SIZE_MOD % Q, count := r.count - 1 }
        (r.buf r.tail) := by
      simp [ring_pop, hz]
    rw [hp]
    refine ⟨by simp [PopResult.returnValue, hz], fun h => absurd h.1 hz, fun _ => ?_⟩
    exact ⟨hpos, rfl, _, rfl, Nat.sub_add_cancel hpos, rfl, rfl, rfl, rfl⟩

/-- Instance of C10 on a ring holding two items. -/
theorem C10_ring_pop_witness :
    ring_pop (sampleRing 2 false) ≠ PopResult.blocked ∧
    (ring_pop (sampleRing 2 false)).returnValue = some true ∧
    ((ring_pop (sampleRing 2 true)).returnValue = some false ↔
      ((sampleRing 2 true).count = 0 ∧ (sampleRing 2 true).stop = true)) :=
  have hc : ring_pop (sampleRing 2 false) ≠ PopResult.blocked := by
    simp [ring_pop, sampleRing]
  have hc1 : ring_pop (sampleRing 2 true) ≠ PopResult.blocked := by
    simp [ring_pop, sampleRing]
  ⟨hc, ((C10_ring_pop (sampleRing 2 false) hc).2.2 (by simp [sampleRing])).2.1,
    (C10_ring_pop (sampleRing 2 true) hc1).1⟩

/-! ## Facts about the barrier -/

theorem arrivals_never_trip (t : Int) (ht : t ≤ 0) (k : Nat) :
    arrivals { count := 0, tripCount := t, generation := 0 } k
      = { count := (k : Int), tripCount := t, generation := 0 } := by
  induction k with
  | zero => simp [arrivals]
  | succ k ih =>
    have hne : ¬ (k : Int) + 1 = t := by omega
    rw [arrivals, ih]
    simp [arrive, pthread_barrier_wait, WaitEntry.barrier, hne]

theorem BarrierSystem.barrier_init_good (N : Nat) (hN : 1 ≤ N)
    (hp : (pthread_barrier_init N).2.tripCount = (N : Int)) :
    (BarrierSystem.init N).Good N := by
  refine ⟨hp, ?_, ?_, ?_, ?_, ?_, ?_, ?_⟩ <;>
    simp [BarrierSystem.init, pthread_barrier_init]
  · omega
  · intro g h0 h1; omega

theorem BarrierSystem.barrier_step_good (N : Nat) (s : BarrierSystem) (e : Event)
    (hg : s.Good N) : (s.step e).Good N := by
  obtain ⟨htrip, hc0, hcN, hg0, hpast, hcur, hfut, hph⟩ := hg
  cases e with
  | call i =>
    cases hpi : s.phase i with
    | inWait g0 =>
      simp only [BarrierSystem.step, hpi]
      exact ⟨htrip, hc0, hcN, hg0, hpast, hcur, hfut, hph⟩
    | outside =>
      by_cases hlast : s.barrier.count + 1 = s.barrier.tripCount
      · have hw : pthread_barrier_wait s.barrier =
            WaitEntry.returned
              { s.barrier with generation := s.barrier.generation + 1, count := 0 }
              PTHREAD_BARRIER_SERIAL_THREAD := by
          simp [pthread_barrier_wait, hlast]
        simp only [BarrierSystem.step, hpi, hw]
        refine ⟨htrip, le_refl 0, by simp only; omega, by simp only; omega, ?_, ?_, ?_, ?_⟩
        · intro g h0 h1
          simp only at h1
          by_cases hgg : g = s.barrier.generation
          · subst hgg
            have : ((List.count s.barrier.generation s.entered : Nat) : Int) + 1 = (N : Int) := by
              rw [hcur]; omega
            simp [List.count_append]
            exact_mod_cast this
          · have hlt : g < s.barrier.generation := by omega
            have hne : ¬ s.barrier.generation = g := fun h => hgg h.symm
            simp [List.count_append, List.count_cons, hne, hpast g h0 hlt]
        · have hne : ¬ s.barrier.generation = s.barrier.generation + 1 := by omega
          simp [List.count_append, List.count_cons, hne, hfut (s.barrier.generation + 1) (by omega)]
        · intro g h1
          simp only at h1
          have hne : ¬ s.barrier.generation = g := by omega
          simp [List.count_append, List.count_cons, hne, hfut g (by omega)]
        · intro j g hj
          have := hph j g hj
          simp only
          omega
      · have hw : pthread_barrier_wait s.barrier =
            WaitEntry.waiting { s.barrier with count := s.barrier.count + 1 }
              s.barrier.generation := by
          simp [pthread_barrier_wait, hlast]
        simp only [BarrierSystem.step, hpi, hw]
        refine ⟨htrip, by simp only; omega, by simp only; omega, hg0, ?_, ?_, ?_, ?_⟩
        · intro g h0 h1
          simp only at h1
          have hne : ¬ s.barrier.generation = g := by omega
          simp [List.count_append, List.count_cons, hne, hpast g h0 h1]
        · simp [List.count_append, hcur]
        · intro g h1
          simp only at h1
          have hne : ¬ s.barrier.generation = g := by omega
          simp [List.count_append, List.count_cons, hne, hfut g h1]
        · intro j g hj
          simp only [setPhase] at hj
          by_cases hji : j = i
          · simp [hji] at hj
            subst hj
            exact ⟨hg0, le_refl _⟩
          · simp [hji] at hj
            exact hph j g hj
  | wake i =>
    cases hpi : s.phase i with
    | outside =>
      simp only [BarrierSystem.step, hpi]
      exact ⟨htrip, hc0, hcN, hg0, hpast, hcur, hfut, hph⟩
    | inWait g0 =>
      cases hr : pthread_barrier_wait_resume s.barrier g0 with
      | none =>
        simp only [BarrierSystem.step, hpi, hr]
        exact ⟨htrip, hc0, hcN, hg0, hpast, hcur, hfut, hph⟩
      | some r =>
        simp only [BarrierSystem.step, hpi, hr]
        refine ⟨htrip, hc0, hcN, hg0, hpast, hcur, hfut, ?_⟩
        intro j g hj
        simp only [setPhase] at hj
        by_cases hji : j = i
        · simp [hji] at hj
        · simp [hji] at hj
          exact hph j g hj

theorem BarrierSystem.barrier_run_good (N : Nat) (es : List Event) :
    ∀ s : BarrierSystem, s.Good N → (s.run es).Good N := by
  induction es with
  | nil => intro s hg; exact hg
  | cons e es ih => intro s hg; exact ih _ (BarrierSystem.barrier_step_good N s e hg)

/-! ## The claims about the barrier -/

/-- C5: in the step model of `pthread_barrier_wait` with `N >= 2` parties, a
participant that captured generation `g` on entry and was sent into the wait
loop (it was not the `N`-th arrival) leaves `wait()` only in a state whose
generation differs from `g`; at that moment round `g` has received `N` calls,
whatever the other participants have done meanwhile (calls for later rounds
included). The premise on `tripCount` says that the `unsigned` argument `N`
arrives unchanged in the `int` field. -/
theorem C5_no_early_release (N : Nat) (hN : 2 ≤ N)
    (hp : (pthread_barrier_init N).2.tripCount = (N : Int))
    (es : List Event) (e : Event) (g : Int)
    (hr : ((BarrierSystem.init N).run es).released e = some g) :
    ((BarrierSystem.init N).run es).barrier.generation ≠ g ∧
    (((BarrierSystem.init N).run es).step e).barrier.generation ≠ g ∧
    g < (((BarrierSystem.init N).run es).step e).barrier.generation ∧
    ((BarrierSystem.init N).run es).entered.count g = N := by
  obtain ⟨_, _, _, _, hpast, _, _, hph⟩ :=
    BarrierSystem.barrier_run_good N es _ (BarrierSystem.barrier_init_good N (by omega) hp)
  generalize (BarrierSystem.init N).run es = s at hr hpast hph ⊢
  cases e with
  | call i => simp [BarrierSystem.released] at hr
  | wake i =>
    cases hpi : s.phase i with
    | outside => simp [BarrierSystem.released, hpi] at hr
    | inWait g0 =>
      cases hres : pthread_barrier_wait_resume s.barrier g0 with
      | none => simp [BarrierSystem.released, hpi, hres] at hr
      | some r =>
        simp only [BarrierSystem.released, hpi, hres, Option.some.injEq] at hr
        simp only [BarrierSystem.step, hpi, hres]
        subst hr
        have hne : ¬ g0 = s.barrier.generation := by
          intro h
          simp [pthread_barrier_wait_resume, h] at hres
        have hb := hph i g0 hpi
        have hlt : g0 < s.barrier.generation := by omega
        exact ⟨fun h => hne h.symm, fun h => hne h.symm, hlt, hpast g0 hb.1 hlt⟩

/-- Instance of C5: two parties; participant 0 calls and waits, participant 1
calls and trips the barrier, then participant 0 wakes up and is released from
round 0, which has received two calls. -/
theorem C5_no_early_release_witness :
    ((BarrierSystem.init 2).run [Event.call 0, Event.call 1]).released (Event.wake 0) = some 0 ∧
    ((BarrierSystem.init 2).run [Event.call 0, Event.call 1]).barrier.generation ≠ 0 ∧
    ((BarrierSystem.init 2).run [Event.call 0, Event.call 1]).entered.count 0 = 2 :=
  have hr : ((BarrierSystem.init 2).run [Event.call 0, Event.call 1]).released (Event.wake 0)
      = some 0 := by decide
  ⟨hr,
   (C5_no_early_release 2 (by decide) (by decide) [Event.call 0, Event.call 1]
      (Event.wake 0) 0 hr).1,
   (C5_no_early_release 2 (by decide) (by decide) [Event.call 0, Event.call 1]
      (Event.wake 0) 0 hr).2.2.2⟩

/-- C6, refuted as stated: `pthread_barrier_init` with a participant count of
0 returns 0, the success status, and leaves an initialised barrier. -/
theorem C6_init_zero_succeeds :
    (pthread_barrier_init 0).1 = 0 ∧
    (pthread_barrier_init 0).2 = { count := 0, tripCount := 0, generation := 0 } := by
  decide

/-- C6 as amended: `pthread_barrier_init` validates nothing and never fails:
for every participant count it returns 0 and sets `count = 0`,
`generation = 0` and `tripCount` to the given count converted to `int`; a
barrier set up with count 0 is never tripped, every arrival has to wait. -/
theorem C6_init_never_fails (n k : Nat) :
    (pthread_barrier_init n).1 = 0 ∧
    (pthread_barrier_init n).2 = { count := 0, tripCount := toInt32 n, generation := 0 } ∧
    pthread_barrier_wait (arrivals (pthread_barrier_init 0).2 k) =
      WaitEntry.waiting { count := (k : Int) + 1, tripCount := 0, generation := 0 } 0 := by
  refine ⟨rfl, rfl, ?_⟩
  have hb : (pthread_barrier_init 0).2 = { count := 0, tripCount := 0, generation := 0 } := by
    decide
  have hne : ¬ (k : Int) + 1 = 0 := by omega
  rw [hb, arrivals_never_trip 0 (le_refl 0) k]
  simp [pthread_barrier_wait, hne]

theorem ring_shutdown_of_stopped (r : Ring) (hs : r.stop = true) : ring_shutdown r = r := by
  cases r
  simp only at hs
  simp [ring_shutdown, hs]

theorem History.step_closed (r : Ring) (hs : r.stop = true) (hc : r.count = 0)
    (h : History) (hr : h.ring = r) (op : Op) :
    (h.step op).ring = r ∧ (h.step op).accepted = h.accepted ∧
      (h.step op).popped = h.popped := by
  cases op with
  | push v => simp [History.step, ring_push, hr, hs]
  | pop => simp [History.step, ring_pop, hr, hs, hc]
  | shutdown => simp [History.step, hr, ring_shutdown_of_stopped r hs]

theorem History.run_closed (r : Ring) (hs : r.stop = true) (hc : r.count = 0)
    (ops : List Op) :
    ∀ h : History, h.ring = r →
      (h.run ops).ring = r ∧ (h.run ops).accepted = h.accepted ∧
        (h.run ops).popped = h.popped := by
  induction ops with
  | nil => intro h hr; exact ⟨hr, rfl, rfl⟩
  | cons op ops ih =>
    intro h hr
    obtain ⟨h1, h2, h3⟩ := History.step_closed r hs hc h hr op
    obtain ⟨k1, k2, k3⟩ := ih (h.step op) h1
    exact ⟨k1, k2.trans h2, k3.trans h3⟩

theorem History.step_stop (h : History) (hs : h.ring.stop = true) (op : Op) :
    (h.step op).ring.stop = true := by
  cases op with
  | push v => simp [History.step, ring_push, hs]
  | pop =>
    by_cases hz : h.ring.count = 0
    · simp [History.step, ring_pop, hs, hz]
    · simp [History.step, ring_pop, hs, hz]
  | shutdown => simp [History.step, ring_shutdown]

theorem History.run_stop (ops : List Op) :
    ∀ h : History, h.ring.stop = true → (h.run ops).ring.stop = true := by
  induction ops with
  | nil => intro h hs; exact hs
  | cons op ops ih => intro h hs; exact ih _ (History.step_stop h hs op)

/-- C11: from a ring with `stop` set and `count = 0`, after every sequence of
`ring_push`, `ring_pop` and `ring_shutdown` operations the ring is still the
same stopped, empty ring, nothing has been accepted or handed out, and a
`ring_pop` returns `false` without waiting; moreover no operation ever resets
a `stop` flag that is set, whatever the ring holds. -/
theorem C11_closed_and_drained (r : Ring) (hs : r.stop = true) (hc : r.count = 0)
    (ops : List Op) (acc pop : List Int) :
    (History.run { ring := r, accepted := acc, popped := pop } ops).ring = r ∧
    (History.run { ring := r, accepted := acc, popped := pop } ops).ring.stop = true ∧
    (History.run { ring := r, accepted := acc, popped := pop } ops).ring.count = 0 ∧
    ring_pop (History.run { ring := r, accepted := acc, popped := pop } ops).ring
      = PopResult.eos r ∧
    (ring_pop (History.run { ring := r, accepted := acc, popped := pop } ops).ring).returnValue
      = some false ∧
    (History.run { ring := r, accepted := acc, popped := pop } ops).popped = pop ∧
    (History.run { ring := r, accepted := acc, popped := pop } ops).accepted = acc ∧
    (∀ h : History, h.ring.stop = true → (h.run ops).ring.stop = true) := by
  obtain ⟨h1, h2, h3⟩ :=
    History.run_closed r hs hc ops { ring := r, accepted := acc, popped := pop } rfl
  have hp : ring_pop r = PopResult.eos r := by simp [ring_pop, hs, hc]
  rw [h1]
  exact ⟨rfl, hs, hc, hp, by rw [hp]; rfl, h3, h2, History.run_stop ops⟩

/-- Instance of C11: a stopped, empty ring put through pushes, pops and
another shutdown. -/
theorem C11_closed_and_drained_witness :
    (sampleRing 0 true).stop = true ∧ (sampleRing 0 true).count = 0 ∧
    ring_pop (History.run { ring := sampleRing 0 true, accepted := [], popped := [] }
      [Op.push 5, Op.pop, Op.shutdown, Op.push 6, Op.pop]).ring
      = PopResult.eos (sampleRing 0 true) :=
  ⟨rfl, rfl,
   (C11_closed_and_drained (sampleRing 0 true) rfl rfl
      [Op.push 5, Op.pop, Op.shutdown, Op.push 6, Op.pop] [] []).2.2.2.1⟩

/-! ## Facts about the stages -/

theorem copy_front_range (raw : List Int) (n : Nat) (hn : n ≤ raw.length) :
    (List.range n).foldl (fun to_process i => to_process ++ [raw.getD i 0]) []
      = raw.take n := by
  induction n with
  | zero => simp
  | succ n ih =>
    have hlt : n < raw.length := hn
    rw [List.range_succ, List.foldl_append, ih (Nat.le_of_lt hlt)]
    simp only [List.foldl_cons, List.foldl_nil]
    rw [List.take_succ, List.getD_eq_getElem?_getD, List.getElem?_eq_getElem hlt]
    simp

theorem stage_filter_take_eq (raw : List Int) :
    stage_filter_take raw = (raw.take 50, raw.drop 50) := by
  unfold stage_filter_take copy_front BUFFER_SIZE
  by_cases h : raw.length ≤ 50
  · have hm : min (raw.length : Int) 50 = (raw.length : Int) := by omega
    simp only [hm, Int.toNat_ofNat]
    rw [copy_front_range raw raw.length (le_refl _)]
    simp [List.take_of_length_le h, List.drop_of_length_le h]
  · have hm : min (raw.length : Int) 50 = ((50 : Nat) : Int) := by omega
    simp only [hm, Int.toNat_ofNat]
    rw [copy_front_range raw 50 (by omega)]

theorem stage_filter_select_eq (l : List Int) :
    stage_filter_select l = l.filter keeps := by
  have h : ∀ (l acc : List Int),
      l.foldl (fun filtered val => if keeps val then filtered ++ [val] else filtered) acc
        = acc ++ l.filter keeps := by
    intro l
    induction l with
    | nil => intro acc; simp
    | cons a l ih =>
      intro acc
      rw [List.foldl_cons, ih]
      by_cases ha : keeps a = true <;> simp [ha, List.filter_cons]
  simpa [stage_filter_select] using h l []

theorem stage_filter_append_eq (fd l : List Int) :
    stage_filter_append fd l = fd ++ l := by
  unfold stage_filter_append
  induction l generalizing fd with
  | nil => simp
  | cons a l ih => rw [List.foldl_cons, ih]; simp

theorem keeps_iff (v : Int) : keeps v = true ↔ (v % 2 = 0 ∧ 20 < v) := by
  unfold keeps
  simp only [Bool.and_eq_true, beq_iff_eq, decide_eq_true_eq, gt_iff_lt]
  constructor
  · rintro ⟨h1, h2⟩
    exact ⟨Int.emod_eq_zero_of_dvd (Int.dvd_of_tmod_eq_zero h1), h2⟩
  · rintro ⟨h1, h2⟩
    exact ⟨Int.tmod_eq_zero_of_dvd (Int.dvd_of_emod_eq_zero h1), h2⟩

theorem foldl_add_eq_sum (l : List Int) : ∀ a : Int,
    l.foldl (fun acc val => acc + val) a = a + l.sum := by
  induction l with
  | nil => intro a; simp
  | cons x l ih => intro a; rw [List.foldl_cons, ih, List.sum_cons]; ring

/-! ## The claims about the stages -/

/-- C12: for every content `raw` of the raw buffer, the take step of the
Filter removes exactly `min(len(raw), 50)` elements: what it takes is the
first `min(len(raw), 50)` elements of `raw` in order, what it leaves is the
remaining suffix, and taken followed by remaining is `raw`; with fewer than 50
elements (none included) it takes all there is. The step is a total function:
it never waits. -/
theorem C12_filter_take (raw : List Int) :
    BUFFER_SIZE = 50 ∧
    (stage_filter_take raw).1 = raw.take (min raw.length 50) ∧
    (stage_filter_take raw).2 = raw.drop (min raw.length 50) ∧
    (stage_filter_take raw).1.length = min raw.length 50 ∧
    (stage_filter_take raw).2.length = raw.length - min raw.length 50 ∧
    (stage_filter_take raw).1 ++ (stage_filter_take raw).2 = raw ∧
    (raw.length < 50 → (stage_filter_take raw).1 = raw ∧ (stage_filter_take raw).2 = []) := by
  rw [stage_filter_take_eq]
  have ht : raw.take (min raw.length 50) = raw.take 50 := by
    by_cases h : raw.length ≤ 50
    · rw [Nat.min_eq_left h, List.take_of_length_le h, List.take_of_length_le (le_refl _)]
    · rw [Nat.min_eq_right (by omega)]
  have hd : raw.drop (min raw.length 50) = raw.drop 50 := by
    by_cases h : raw.length ≤ 50
    · rw [Nat.min_eq_left h, List.drop_of_length_le h, List.drop_of_length_le (le_refl _)]
    · rw [Nat.min_eq_right (by omega)]
  refine ⟨rfl, ht.symm, hd.symm, ?_, ?_, List.take_append_drop 50 raw, fun h => ?_⟩
  · simp only [List.length_take]; omega
  · simp only [List.length_drop]; omega
  · exact ⟨List.take_of_length_le (by omega), List.drop_of_length_le (by omega)⟩

/-- Instance of C12 on a raw buffer of three elements. -/
theorem C12_filter_take_witness :
    ([7, 22, 40] : List Int).length < 50 ∧
    (stage_filter_take [7, 22, 40]).1 = [7, 22, 40] ∧ (stage_filter_take [7, 22, 40]).2 = [] :=
  ⟨by decide, (C12_filter_take [7, 22, 40]).2.2.2.2.2.2 (by decide)⟩

/-- C13: for every list of taken values and every filtered buffer, one tick of
the Filter appends to the back of the filtered buffer exactly the taken values
that are even and greater than 20, in their order and once each (as many as
there are taken values with that property), and leaves what the buffer held in
front. -/
theorem C13_filter_append (taken filtered_data : List Int) :
    stage_filter_append filtered_data (stage_filter_select taken)
      = filtered_data ++ taken.filter (fun v => decide (v % 2 = 0 ∧ 20 < v)) ∧
    (stage_filter_select taken).length = taken.countP (fun v => decide (v % 2 = 0 ∧ 20 < v)) ∧
    (stage_filter_append filtered_data (stage_filter_select taken)).take filtered_data.length
      = filtered_data := by
  have hk : keeps = fun v => decide (v % 2 = 0 ∧ 20 < v) := by
    funext v
    by_cases h : v % 2 = 0 ∧ 20 < v
    · rw [(keeps_iff v).2 h]; exact (decide_eq_true h).symm
    · have : keeps v = false := by
        cases hkv : keeps v with
        | false => rfl
        | true => exact absurd ((keeps_iff v).1 hkv) h
      rw [this]; exact (decide_eq_false h).symm
  rw [stage_filter_append_eq, stage_filter_select_eq, List.countP_eq_length_filter, hk]
  exact ⟨rfl, rfl, by simp⟩

/-- C14: for every filtered buffer `f` and accumulator value `a`, one tick of
the Reducer leaves the filtered buffer empty and sets `final_result` to `a`
plus the sum of the elements of `f` (the raw buffer is not touched). -/
theorem C14_reducer_tick (raw f : List Int) (a : Int) :
    stage_reducer_tick { raw_data := raw, filtered_data := f, final_result := a }
      = { raw_data := raw, filtered_data := [], final_result := a + f.sum } := by
  simp [stage_reducer_tick, foldl_add_eq_sum]

/-! ## Facts about the lock-step pipeline -/

theorem keptSum_append (a b : List Int) : keptSum (a ++ b) = keptSum a + keptSum b := by
  simp [keptSum, List.filter_append, List.sum_append]

theorem QueueSystem.run_append (draws : Nat → Int) (s : QueueSystem) (a b : List Thread) :
    s.run draws (a ++ b) = (s.run draws a).run draws b := by
  simp [QueueSystem.run, List.foldl_append]

theorem QueueSystem.producer_prefix (draws : Nat → Int) (n : Nat) (hn : n ≤ ITEMS) :
    QueueSystem.init.run draws (List.replicate n Thread.producer)
      = { queue_pipeline :=
            { stage1_to_stage2 := (List.range n).map draws, stage2_to_stage3 := [],
              pipeline_done := false, result := 0 }
          producer_i := n
          producer_returned := false
          filter := FilterPc.atLoop
          consumer := ConsumerPc.atLoop } := by
  induction n with
  | zero => rfl
  | succ n ih =>
    have hlt : n < ITEMS := hn
    rw [List.replicate_succ', QueueSystem.run_append, ih (Nat.le_of_lt hlt)]
    simp [QueueSystem.run, QueueSystem.step, queue_producer, hlt, List.range_succ]

theorem QueueSystem.producer_done (draws : Nat → Int) :
    QueueSystem.init.run draws (List.replicate (ITEMS + 1) Thread.producer)
      = { queue_pipeline :=
            { stage1_to_stage2 := producedItems draws, stage2_to_stage3 := [],
              pipeline_done := true, result := 0 }
          producer_i := ITEMS
          producer_returned := true
          filter := FilterPc.atLoop
          consumer := ConsumerPc.atLoop } := by
  rw [List.replicate_succ', QueueSystem.run_append,
    QueueSystem.producer_prefix draws ITEMS (le_refl _)]
  simp [QueueSystem.run, QueueSystem.step, queue_producer, producedItems]

theorem QueueSystem.producer_first (draws : Nat → Int) :
    QueueSystem.init.run draws scheduleProducerFirst
      = { queue_pipeline :=
            { stage1_to_stage2 := producedItems draws, stage2_to_stage3 := [],
              pipeline_done := true, result := 0 }
          producer_i := ITEMS
          producer_returned := true
          filter := FilterPc.atLoop
          consumer := ConsumerPc.returned } := by
  rw [scheduleProducerFirst, QueueSystem.run_append, QueueSystem.producer_done]
  simp [QueueSystem.run, QueueSystem.step, queue_consumer]

theorem QueueSystem.filter_drains (draws : Nat → Int) (c : ConsumerPc) (i : Nat) (r : Int)
    (l : List Int) :
    ∀ q2 : List Int,
      QueueSystem.run draws
        { queue_pipeline :=
            { stage1_to_stage2 := l, stage2_to_stage3 := q2, pipeline_done := true,
              result := r }
          producer_i := i
          producer_returned := true
          filter := FilterPc.atLoop
          consumer := c }
        (List.replicate (2 * l.length) Thread.filter)
      = { queue_pipeline :=
            { stage1_to_stage2 := [], stage2_to_stage3 := q2 ++ l.filter keeps,
              pipeline_done := true, result := r }
          producer_i := i
          producer_returned := true
          filter := FilterPc.atLoop
          consumer := c } := by
  induction l with
  | nil => intro q2; simp [QueueSystem.run]
  | cons a l ih =>
    intro q2
    have hlen : 2 * (a :: l).length = 2 * l.length + 1 + 1 := by
      simp only [List.length_cons]; omega
    rw [hlen, List.replicate_succ, List.replicate_succ]
    by_cases ha : keeps a = true
    · have := ih (q2 ++ [a])
      simp only [QueueSystem.run, List.foldl_cons, QueueSystem.step, queue_filter, ha,
        if_true] at this ⊢
      rw [this]
      simp [List.filter_cons, ha]
    · have ha1 : keeps a = false := by simpa using ha
      have := ih q2
      simp only [QueueSystem.run, List.foldl_cons, QueueSystem.step, queue_filter, ha1,
        Bool.false_eq_true, if_false] at this ⊢
      rw [this]
      simp [List.filter_cons, ha1]

theorem producedItems_length (draws : Nat → Int) : (producedItems draws).length = ITEMS := by
  simp [producedItems]

theorem QueueSystem.producer_consumer_filter (draws : Nat → Int) :
    QueueSystem.init.run draws scheduleProducerConsumerFilter
      = { queue_pipeline :=
            { stage1_to_stage2 := [], stage2_to_stage3 := (producedItems draws).filter keeps,
              pipeline_done := true, result := 0 }
          producer_i := ITEMS
          producer_returned := true
          filter := FilterPc.returned
          consumer := ConsumerPc.returned } := by
  rw [scheduleProducerConsumerFilter, QueueSystem.run_append, QueueSystem.producer_first,
    List.replicate_add, QueueSystem.run_append]
  have h := QueueSystem.filter_drains draws ConsumerPc.returned ITEMS 0 (producedItems draws) []
  rw [producedItems_length] at h
  rw [h]
  simp [QueueSystem.run, QueueSystem.step, queue_filter]

theorem keptSum_map_const (n : Nat) :
    keptSum ((List.range n).map (fun _ => (22 : Int))) = 22 * (n : Int) := by
  induction n with
  | zero => rfl
  | succ n ih =>
    rw [List.range_succ, List.map_append, keptSum_append, ih]
    have h1 : keptSum (List.map (fun _ => (22 : Int)) [n]) = 22 := by
      simp only [List.map]; decide
    rw [h1]
    push_cast
    ring

/-! ## Facts about the shared set-up -/

theorem init_shared_console (fopen_ok : Bool) (s : SharedResources) :
    (init_shared fopen_ok s).console = s.console ++ ["Shared resources initialized"] := by
  cases fopen_ok <;> rfl

theorem Startup.startup_init_good : Startup.init.Good := by
  refine ⟨fun _ => ⟨rfl, rfl, fun _ => rfl⟩, fun h => ?_, fun h => ?_, fun h => ?_⟩ <;>
    simp [Startup.init] at h

theorem Startup.startup_step_good (fopen_ok : Bool) (s : Startup) (i : Nat) (hg : s.Good) :
    (s.step fopen_ok i).Good := by
  obtain ⟨hinit, hprog, hdone, huniq⟩ := hg
  cases hst : s.stage i with
  | created =>
    cases hfl : s.once_flag with
    | init =>
      obtain ⟨he, hsh, hall⟩ := hinit hfl
      simp only [Startup.step, hst, hfl]
      refine ⟨fun h => by simp at h, fun _ => ⟨by simp [he], hsh, fun j => ?_⟩,
        fun h => by simp at h, fun _ a b ha hb => ?_⟩
      · simp only [setStage]
        by_cases hj : j = i <;> simp [hj, hall j]
      · simp only [setStage] at ha hb
        by_cases h1 : a = i
        · by_cases h2 : b = i
          · rw [h1, h2]
          · simp [h2, hall b] at hb
        · simp [h1, hall a] at ha
    | inProgress =>
      obtain ⟨he, hsh, hall⟩ := hprog hfl
      simp only [Startup.step, hst, hfl]
      refine ⟨fun h => by simp [hfl] at h, fun _ => ⟨he, hsh, fun j => ?_⟩,
        fun h => by simp [hfl] at h, fun _ a b ha hb => ?_⟩
      · simp only [setStage]
        by_cases hj : j = i
        · simp [hj]
        · simp [hj, hall j]
      · simp only [setStage] at ha hb
        by_cases h1 : a = i
        · simp [h1] at ha
        · by_cases h2 : b = i
          · simp [h2] at hb
          · simp only [h1, h2, if_false] at ha hb
            exact huniq hfl a b ha hb
    | done =>
      obtain ⟨he, hco, hall⟩ := hdone hfl
      simp only [Startup.step, hst, hfl]
      refine ⟨fun h => by simp [hfl] at h, fun h => by simp [hfl] at h,
        fun _ => ⟨he, hco, fun j => ?_⟩, fun h => by simp [hfl] at h⟩
      simp only [setStage]
      by_cases hj : j = i
      · simp [hj]
      · simp [hj, hall j]
  | initialising =>
    cases hfl : s.once_flag with
    | init => exact absurd hst (by rw [(hinit hfl).2.2 i]; decide)
    | done => exact absurd hst ((hdone hfl).2.2 i)
    | inProgress =>
      obtain ⟨he, hsh, hall⟩ := hprog hfl
      simp only [Startup.step, hst]
      refine ⟨fun h => by simp at h, fun h => by simp at h,
        fun _ => ⟨he, ?_, fun j => ?_⟩, fun h => by simp at h⟩
      · rw [init_shared_console, hsh]; rfl
      · simp only [setStage]
        by_cases hj : j = i
        · simp [hj]
        · simp only [hj, if_false]
          exact fun h => hj (huniq hfl j i h hst)
  | blockedInOnce =>
    cases hfl : s.once_flag with
    | init =>
      simp only [Startup.step, hst, hfl]
      exact ⟨hinit, hprog, hdone, huniq⟩
    | inProgress =>
      simp only [Startup.step, hst, hfl]
      exact ⟨hinit, hprog, hdone, huniq⟩
    | done =>
      obtain ⟨he, hco, hall⟩ := hdone hfl
      simp only [Startup.step, hst, hfl]
      refine ⟨fun h => by simp [hfl] at h, fun h => by simp [hfl] at h,
        fun _ => ⟨he, hco, fun j => ?_⟩, fun h => by simp [hfl] at h⟩
      simp only [setStage]
      by_cases hj : j = i
      · simp [hj]
      · simp [hj, hall j]
  | inLoop =>
    simp only [Startup.step, hst]
    exact ⟨hinit, hprog, hdone, huniq⟩

theorem Startup.startup_run_good (fopen_ok : Bool) (sched : List Nat) :
    ∀ s : Startup, s.Good → (s.run fopen_ok sched).Good := by
  induction sched with
  | nil => intro s hg; exact hg
  | cons i sched ih => intro s hg; exact ih _ (Startup.startup_step_good fopen_ok s i hg)

theorem Startup.step_similar (s1 s2 : Startup) (i : Nat) (h : s1.Similar s2) :
    (s1.step false i).Similar (s2.step true i) := by
  obtain ⟨hf, hs, hc⟩ := h
  have hsi : s1.stage i = s2.stage i := by rw [hs]
  unfold Startup.step
  rw [← hsi, ← hf]
  cases s1.stage i with
  | created =>
    cases s1.once_flag <;> exact ⟨rfl, by simp only [hs], hc⟩
  | initialising =>
    exact ⟨rfl, by simp only [hs], by simp only [init_shared_console, hc]⟩
  | blockedInOnce =>
    cases s1.once_flag
    · exact ⟨hf, hs, hc⟩
    · exact ⟨hf, hs, hc⟩
    · exact ⟨rfl, by simp only [hs], hc⟩
  | inLoop => exact ⟨hf, hs, hc⟩

theorem Startup.run_similar (sched : List Nat) :
    ∀ s1 s2 : Startup, s1.Similar s2 → (s1.run false sched).Similar (s2.run true sched) := by
  induction sched with
  | nil => intro s1 s2 h; exact h
  | cons i sched ih => intro s1 s2 h; exact ih _ _ (Startup.step_similar s1 s2 i h)

/-! ## The claims about the queue-based pipeline and the shared set-up -/

/-- C16, the defect: the producer draws 22 every time; it runs to its end
(5000 items in queue 1, `pipeline_done` set), then the consumer takes its
step, finds queue 2 empty and `pipeline_done` set and returns, then the filter
moves the 5000 items to queue 2 and returns. All three threads have returned,
`result` is 0, the sum of the produced items that pass the test is 110000, and
the items are left in queue 2. -/
theorem C16_items_left_unconsumed :
    (QueueSystem.init.run (fun _ => 22) scheduleProducerConsumerFilter).terminated = true ∧
    (QueueSystem.init.run (fun _ => 22) scheduleProducerConsumerFilter).queue_pipeline.result
      = 0 ∧
    keptSum (producedItems (fun _ => 22)) = 110000 ∧
    (QueueSystem.init.run (fun _ => 22)
        scheduleProducerConsumerFilter).queue_pipeline.stage2_to_stage3
      = (producedItems (fun _ => 22)).filter keeps ∧
    ITEMS = 5000 := by
  rw [QueueSystem.producer_consumer_filter]
  refine ⟨rfl, rfl, ?_, by simp only, by decide⟩
  rw [producedItems, keptSum_map_const]
  decide

/-- C18: in a pipeline run (the flag starts as `PTHREAD_ONCE_INIT`), whatever
the number of stages and the order of their steps, `init_shared` is entered at
most once; as soon as some stage has left its `created` position it has been
entered exactly once; and a stage is in its tick loop only after that one
execution has completed (the flag is `done` and the line of `init_shared` has
been printed once). -/
theorem C18_init_shared_once (fopen_ok : Bool) (sched : List Nat) (i : Nat)
    (hi : (Startup.init.run fopen_ok sched).stage i = StagePc.inLoop) :
    (Startup.init.run fopen_ok sched).executions = 1 ∧
    (Startup.init.run fopen_ok sched).once_flag = OnceFlag.done ∧
    (Startup.init.run fopen_ok sched).shared.console = ["Shared resources initialized"] ∧
    (∀ sched1 : List Nat, (Startup.init.run fopen_ok sched1).executions ≤ 1) ∧
    (∀ (sched1 : List Nat) (j : Nat),
      (Startup.init.run fopen_ok sched1).stage j ≠ StagePc.created →
        (Startup.init.run fopen_ok sched1).executions = 1) := by
  have hall : ∀ sched1 : List Nat, (Startup.init.run fopen_ok sched1).Good :=
    fun sched1 => Startup.startup_run_good fopen_ok sched1 _ Startup.startup_init_good
  refine ⟨?_, ?_, ?_, fun sched1 => ?_, fun sched1 j hj => ?_⟩
  · obtain ⟨h1, h2, h3, _⟩ := hall sched
    cases hfl : (Startup.init.run fopen_ok sched).once_flag with
    | init => rw [(h1 hfl).2.2 i] at hi; exact absurd hi (by decide)
    | inProgress => exact absurd hi ((h2 hfl).2.2 i)
    | done => exact (h3 hfl).1
  · obtain ⟨h1, h2, _, _⟩ := hall sched
    cases hfl : (Startup.init.run fopen_ok sched).once_flag with
    | init => rw [(h1 hfl).2.2 i] at hi; exact absurd hi (by decide)
    | inProgress => exact absurd hi ((h2 hfl).2.2 i)
    | done => rfl
  · obtain ⟨h1, h2, h3, _⟩ := hall sched
    cases hfl : (Startup.init.run fopen_ok sched).once_flag with
    | init => rw [(h1 hfl).2.2 i] at hi; exact absurd hi (by decide)
    | inProgress => exact absurd hi ((h2 hfl).2.2 i)
    | done => exact (h3 hfl).2.1
  · obtain ⟨h1, h2, h3, _⟩ := hall sched1
    cases hfl : (Startup.init.run fopen_ok sched1).once_flag with
    | init => rw [(h1 hfl).1]; exact Nat.zero_le 1
    | inProgress => rw [(h2 hfl).1]
    | done => rw [(h3 hfl).1]
  · obtain ⟨h1, h2, h3, _⟩ := hall sched1
    cases hfl : (Startup.init.run fopen_ok sched1).once_flag with
    | init => exact absurd ((h1 hfl).2.2 j) hj
    | inProgress => exact (h2 hfl).1
    | done => exact (h3 hfl).1

/-- Instance of C18: stage 0 starts `init_shared`, stage 1 calls
`pthread_once` meanwhile and blocks, stage 0 finishes, stage 1 returns. -/
theorem C18_init_shared_once_witness :
    (Startup.init.run true [0, 1, 0, 1]).stage 1 = StagePc.inLoop ∧
    (Startup.init.run true [0, 1, 0, 1]).executions = 1 ∧
    (Startup.init.run true [0, 1, 0, 1]).once_flag = OnceFlag.done :=
  have hi : (Startup.init.run true [0, 1, 0, 1]).stage 1 = StagePc.inLoop := by decide
  ⟨hi, (C18_init_shared_once true [0, 1, 0, 1] 1 hi).1,
    (C18_init_shared_once true [0, 1, 0, 1] 1 hi).2.1⟩

/-- C19, refuted as stated: when `fopen` fails, `init_shared` returns as
usual with `log_file` null, prints the same line as on success, later calls
of `log_stage_activity` do nothing, and the stages reach their tick loops. -/
theorem C19_failure_is_swallowed :
    (init_shared false SharedResources.start).log_file = none ∧
    (init_shared false SharedResources.start).console = ["Shared resources initialized"] ∧
    (init_shared false SharedResources.start).console
      = (init_shared true SharedResources.start).console ∧
    log_stage_activity (init_shared false SharedResources.start) 1 0 "Generated data batch"
      = init_shared false SharedResources.start ∧
    (Startup.init.run false [0, 0, 1]).stage 0 = StagePc.inLoop ∧
    (Startup.init.run false [0, 0, 1]).stage 1 = StagePc.inLoop := by
  decide

/-- C19 as amended: when the log file cannot be opened, nothing is reported:
`init_shared` (a `void` function) leaves `log_file` null and prints the same
line as on success, every later `log_stage_activity` is skipped, and the
stages get to the same positions and console output as in a run in which the
file was opened. -/
theorem C19_init_failure_is_silent (s : SharedResources) (stage_id tick : Int)
    (text : String) (sched : List Nat) (i : Nat) :
    (init_shared false s).log_file = none ∧
    (init_shared false s).console = s.console ++ ["Shared resources initialized"] ∧
    (init_shared false s).console = (init_shared true s).console ∧
    log_stage_activity (init_shared false s) stage_id tick text = init_shared false s ∧
    (Startup.init.run false sched).stage i = (Startup.init.run true sched).stage i ∧
    (Startup.init.run false sched).shared.console
      = (Startup.init.run true sched).shared.console := by
  obtain ⟨_, h2, h3⟩ := Startup.run_similar sched Startup.init Startup.init ⟨rfl, rfl, rfl⟩
  exact ⟨rfl, rfl, rfl, rfl, by rw [h2], h3⟩

/-- C20, the defect: after the producer has run to its end and set
`pipeline_done`, one step of the consumer finds queue 2 empty and that flag
set and returns, while the filter is still at the top of its loop, has not
seen the end of queue 1 and has closed nothing, and all 5000 produced items
are in queue 1. -/
theorem C20_consumer_leaves_on_producer_flag (draws : Nat → Int) :
    (QueueSystem.init.run draws scheduleProducerFirst).consumer = ConsumerPc.returned ∧
    (QueueSystem.init.run draws scheduleProducerFirst).filter = FilterPc.atLoop ∧
    (QueueSystem.init.run draws scheduleProducerFirst).queue_pipeline.stage1_to_stage2
      = producedItems draws ∧
    (QueueSystem.init.run draws
        scheduleProducerFirst).queue_pipeline.stage1_to_stage2.length = 5000 ∧
    (QueueSystem.init.run draws
        (List.replicate (ITEMS + 1) Thread.producer)).queue_pipeline.pipeline_done = true ∧
    (QueueSystem.init.run draws
        (List.replicate (ITEMS + 1) Thread.producer)).filter = FilterPc.atLoop := by
  rw [QueueSystem.producer_first, QueueSystem.producer_done]
  refine ⟨rfl, rfl, by simp only, ?_, rfl, rfl⟩
  simp only [producedItems_length]
  decide

/-! ## Facts about the hash map -/

theorem chain_get_set (chain : List Node) (k v k1 r : Int) :
    ∀ chain1, chain_set chain k v = some chain1 →
      chain_get chain1 k1 r = if k1 = k then v else chain_get chain k1 r := by
  induction chain with
  | nil => intro chain1 h; simp [chain_set] at h
  | cons n rest ih =>
    intro chain1 h
    by_cases hn : n.k = k
    · simp only [chain_set, hn, beq_self_eq_true, if_true, Option.some.injEq] at h
      subst h
      by_cases hk : k1 = k
      · simp [chain_get, hk]
      · have hk2 : ¬ k = k1 := fun e => hk e.symm
        simp [chain_get, hn, hk, hk2]
    · have hb : (n.k == k) = false := by simpa using hn
      simp only [chain_set, hb, Bool.false_eq_true, if_false] at h
      cases hs : chain_set rest k v with
      | none => simp [hs] at h
      | some rest1 =>
        simp only [hs, Option.some.injEq] at h
        subst h
        have hrec := ih rest1 hs
        by_cases hk : k1 = k
        · rw [hk] at hrec ⊢
          simp only [chain_get, beq_iff_eq, hn, if_false, hrec]
        · simp only [chain_get, hrec, hk, if_false]

theorem chain_get_cons_new (chain : List Node) (k v k1 r : Int) :
    chain_get ({ k := k, v := v } :: chain) k1 r
      = if k1 = k then v else chain_get chain k1 r := by
  by_cases hk : k1 = k
  · simp [chain_get, hk]
  · have hk2 : ¬ k = k1 := fun e => hk e.symm
    simp [chain_get, hk, hk2]

theorem bucket_get_put (b : Nat → List Node) (bucket bucket1 : Nat) (k v k1 : Int)
    (hb : k1 = k → bucket1 = bucket) :
    chain_get
        ((match chain_set (b bucket) k v with
          | some chain => bucketStore b bucket chain
          | none => bucketStore b bucket ({ k := k, v := v } :: b bucket)) bucket1) k1 (-1)
      = if k1 = k then v else chain_get (b bucket1) k1 (-1) := by
  by_cases hbb : bucket1 = bucket
  · subst hbb
    cases hs : chain_set (b bucket1) k v with
    | some chain =>
      simp only [bucketStore, if_true]
      exact chain_get_set (b bucket1) k v k1 (-1) chain hs
    | none =>
      simp only [bucketStore, if_true]
      exact chain_get_cons_new (b bucket1) k v k1 (-1)
  · have hk : ¬ k1 = k := fun e => hbb (hb e)
    cases hs : chain_set (b bucket) k v with
    | some chain => simp only [bucketStore, hbb, if_false, hk]
    | none => simp only [bucketStore, hbb, if_false, hk]

theorem map_get_put_rw (m : MapRW) (k v k1 : Int) :
    map_get_rw (map_put_rw m k v) k1 = if k1 = k then v else map_get_rw m k1 := by
  have h := bucket_get_put m.b (m.hash k) (m.hash k1) k v k1
    (fun e => by rw [e])
  have hb : (map_put_rw m k v).b
      = (match chain_set (m.b (m.hash k)) k v with
          | some chain => bucketStore m.b (m.hash k) chain
          | none => bucketStore m.b (m.hash k) ({ k := k, v := v } :: m.b (m.hash k))) := by
    dsimp only [map_put_rw]
    cases chain_set (m.b (m.hash k)) k v <;> rfl
  show chain_get ((map_put_rw m k v).b (m.hash k1)) k1 (-1)
    = if k1 = k then v else chain_get (m.b (m.hash k1)) k1 (-1)
  rw [hb]
  exact h

theorem map_get_put_mutex (m : MapMutex) (k v k1 : Int) :
    map_get_mutex (map_put_mutex m k v) k1 = if k1 = k then v else map_get_mutex m k1 := by
  have h := bucket_get_put m.b (m.hash k) (m.hash k1) k v k1
    (fun e => by rw [e])
  have hb : (map_put_mutex m k v).b
      = (match chain_set (m.b (m.hash k)) k v with
          | some chain => bucketStore m.b (m.hash k) chain
          | none => bucketStore m.b (m.hash k) ({ k := k, v := v } :: m.b (m.hash k))) := by
    dsimp only [map_put_mutex]
    cases chain_set (m.b (m.hash k)) k v <;> rfl
  show chain_get ((map_put_mutex m k v).b (m.hash k1)) k1 (-1)
    = if k1 = k then v else chain_get (m.b (m.hash k1)) k1 (-1)
  rw [hb]
  exact h

theorem putAllRW_get (puts : List (Int × Int)) (k1 : Int) (hk : ∀ p ∈ puts, p.1 ≠ k1) :
    ∀ m : MapRW, map_get_rw (putAllRW m puts) k1 = map_get_rw m k1 := by
  induction puts with
  | nil => intro m; rfl
  | cons p puts ih =>
    intro m
    have hp : ¬ k1 = p.1 := fun e => hk p (List.mem_cons_self _ _) e.symm
    show map_get_rw (putAllRW (map_put_rw m p.1 p.2) puts) k1 = _
    rw [ih (fun q hq => hk q (List.mem_cons_of_mem _ hq)), map_get_put_rw, if_neg hp]

theorem putAllMutex_get (puts : List (Int × Int)) (k1 : Int) (hk : ∀ p ∈ puts, p.1 ≠ k1) :
    ∀ m : MapMutex, map_get_mutex (putAllMutex m puts) k1 = map_get_mutex m k1 := by
  induction puts with
  | nil => intro m; rfl
  | cons p puts ih =>
    intro m
    have hp : ¬ k1 = p.1 := fun e => hk p (List.mem_cons_self _ _) e.symm
    show map_get_mutex (putAllMutex (map_put_mutex m p.1 p.2) puts) k1 = _
    rw [ih (fun q hq => hk q (List.mem_cons_of_mem _ hq)), map_get_put_mutex, if_neg hp]

/-! ## The claim about the hash map -/

/-- C21: for every state of the hash map, keys `k`, `k1` and value `v`
(colliding and negative keys included), after `map_put(m, k, v)` the call
`map_get(m, k1)` returns `v` when `k1 = k` and otherwise what it returned
before the put; on a map built from the empty one by puts, `map_get` returns
-1 for a key that was never put. Both for the rwlock and for the mutex
variant. -/
theorem C21_map_get_after_put (mr : MapRW) (mm : MapMutex) (k k1 v : Int)
    (puts : List (Int × Int)) (hnever : ∀ p ∈ puts, p.1 ≠ k1) :
    map_get_rw (map_put_rw mr k v) k = v ∧
    map_get_rw (map_put_rw mr k v) k1 = (if k1 = k then v else map_get_rw mr k1) ∧
    map_get_rw (putAllRW MapRW.empty puts) k1 = -1 ∧
    map_get_mutex (map_put_mutex mm k v) k = v ∧
    map_get_mutex (map_put_mutex mm k v) k1 = (if k1 = k then v else map_get_mutex mm k1) ∧
    map_get_mutex (putAllMutex MapMutex.empty puts) k1 = -1 := by
  refine ⟨?_, map_get_put_rw mr k v k1, ?_, ?_, map_get_put_mutex mm k v k1, ?_⟩
  · rw [map_get_put_rw, if_pos rfl]
  · rw [putAllRW_get puts k1 hnever]; rfl
  · rw [map_get_put_mutex, if_pos rfl]
  · rw [putAllMutex_get puts k1 hnever]; rfl

/-- Instance of C21: the keys 5 and 1029 share bucket 5, the key -1 lies in
bucket 1023; putting 1029 leaves the value of 5 alone, and 5 is absent from a
map into which only -1 and 1029 were put. -/
theorem C21_map_get_after_put_witness :
    MapRW.hash sampleMapRW 1029 = MapRW.hash sampleMapRW 5 ∧
    MapRW.hash sampleMapRW (-1) = 1023 ∧
    map_get_rw sampleMapRW 5 = 50 ∧
    map_get_rw (map_put_rw sampleMapRW 1029 8) 5
      = (if (5 : Int) = 1029 then 8 else map_get_rw sampleMapRW 5) ∧
    map_get_rw (putAllRW MapRW.empty [(-1, 3), (1029, 4)]) 5 = -1 ∧
    map_get_mutex (map_put_mutex sampleMapMutex (-1) 8) (-1) = 8 :=
  ⟨by decide, by decide, by decide,
   (C21_map_get_after_put sampleMapRW sampleMapMutex 1029 5 8 [(-1, 3), (1029, 4)]
      (by decide)).2.1,
   (C21_map_get_after_put sampleMapRW sampleMapMutex 1029 5 8 [(-1, 3), (1029, 4)]
      (by decide)).2.2.1,
   (C21_map_get_after_put sampleMapRW sampleMapMutex (-1) 5 8 [(-1, 3), (1029, 4)]
      (by decide)).2.2.2.1⟩

/-! ## The bank transfer -/

/-- C17, refuted as stated: in the three-account scenario (1000, 500, 750,
total 2250) a transfer of the amount `INT_MIN` from account 1 to account 2
passes the guard `from->value >= amount`; `from->value -= amount` then leaves
the range of `int`, and with the wrapped result the balances add up to
2250 - 2^32. -/
theorem C17_overflow_changes_total :
    IsInt (-2147483648) ∧
    bankAccounts.sum bankInit = 2250 ∧
    bankInit 1 ≥ -2147483648 ∧
    ¬ IsInt (bankInit 1 - (-2147483648)) ∧
    transfer_step bankInit 1 2 (-2147483648) 1 = -2147482648 ∧
    transfer_step bankInit 1 2 (-2147483648) 2 = -2147483148 ∧
    bankAccounts.sum (transfer_step bankInit 1 2 (-2147483648)) = 2250 - 4294967296 ∧
    bankAccounts.sum (transfer_step bankInit 1 2 (-2147483648)) ≠ bankAccounts.sum bankInit := by
  refine ⟨⟨by decide, by decide⟩, by decide, by decide, ?_, by decide, by decide,
    by decide, by decide⟩
  intro h
  exact absurd h.2 (by decide)

/-- C22, refuted as stated: two accounts both hold `INT_MAX` and 1 is
transferred from the first to the second (balances and amount non-negative).
The guard passes, `to->value += amount` leaves the range of `int`, and with
the wrapped result the second balance is `INT_MIN`: it has not gone up by
the amount and it is negative. -/
theorem C22_overflow_makes_negative :
    IsInt 2147483647 ∧
    transfer_iteration (fun _ => 2147483647) 1 2 1
      = some (transfer_step (fun _ => 2147483647) 1 2 1) ∧
    transfer_step (fun _ => 2147483647) 1 2 1 1 = 2147483646 ∧
    transfer_step (fun _ => 2147483647) 1 2 1 2 = -2147483648 ∧
    transfer_step (fun _ => 2147483647) 1 2 1 2 ≠ 2147483647 + 1 ∧
    transfer_step (fun _ => 2147483647) 1 2 1 2 < 0 := by
  refine ⟨⟨by decide, by decide⟩, by simp [transfer_iteration], by decide, by decide,
    by decide, by decide⟩

theorem wrapInt_succ (x : Int) : wrapInt (wrapInt x + 1) = wrapInt (x + 1) := by
  unfold wrapInt
  omega

theorem wrapInt_zero : wrapInt ((0 : Nat) : Int) = 0 := by
  decide

theorem arrive32_of_ne (b : pthread_barrier_t) (h : ¬ wrapInt (b.count + 1) = b.tripCount) :
    arrive32 b = { count := wrapInt (b.count + 1), tripCount := b.tripCount,
                   generation := b.generation } := by
  unfold arrive32 pthread_barrier_wait32
  simp only [beq_iff_eq, h, if_false, if_true, WaitEntry.barrier]

theorem arrive32_of_eq (b : pthread_barrier_t) (h : wrapInt (b.count + 1) = b.tripCount) :
    arrive32 b = { count := 0, tripCount := b.tripCount,
                   generation := wrapInt (b.generation + 1) } := by
  unfold arrive32 pthread_barrier_wait32
  simp only [beq_iff_eq, h, if_true, WaitEntry.barrier]

theorem arrivals32_single (k : Nat) :
    arrivals32 { count := 0, tripCount := 1, generation := 0 } k
      = { count := 0, tripCount := 1, generation := wrapInt (k : Int) } := by
  induction k with
  | zero =>
    rw [wrapInt_zero]
    rfl
  | succ k ih =>
    have h1 : wrapInt ((0 : Int) + 1) = 1 := by decide
    rw [arrivals32, ih,
      arrive32_of_eq { count := 0, tripCount := 1, generation := wrapInt (k : Int) } h1,
      Nat.cast_succ]
    exact congrArg (fun g => ({ count := 0, tripCount := 1, generation := g } : pthread_barrier_t))
      (wrapInt_succ (k : Int))

theorem wrapInt_ne_minus_one (k : Nat) (hk : (k : Int) + 1 ≤ 2147483648) :
    ¬ wrapInt ((k : Int) + 1) = -1 := by
  have h0 : (0 : Int) ≤ (k : Int) := Int.ofNat_nonneg k
  unfold wrapInt
  by_cases h : (k : Int) + 1 < 2147483648
  · have he : ((k : Int) + 1 + 2147483648) % 4294967296 = (k : Int) + 1 + 2147483648 :=
      Int.emod_eq_of_lt (by linarith) (by linarith)
    rw [he]
    intro hc
    linarith
  · have he : (k : Int) + 1 = 2147483648 := by linarith
    rw [he]
    decide

theorem arrivals32_wide (k : Nat) :
    (k : Int) ≤ 2147483648 →
    arrivals32 { count := 0, tripCount := -1, generation := 0 } k
      = { count := wrapInt (k : Int), tripCount := -1, generation := 0 } := by
  induction k with
  | zero =>
    intro _
    rw [wrapInt_zero]
    rfl
  | succ k ih =>
    intro hk
    have hk0 : (k : Int) + 1 ≤ 2147483648 := by rw [Nat.cast_succ] at hk; exact hk
    have hk1 : (k : Int) ≤ 2147483648 := by linarith
    have hne : ¬ wrapInt (wrapInt (k : Int) + 1) = -1 := by
      rw [wrapInt_succ]
      exact wrapInt_ne_minus_one k hk0
    rw [arrivals32, ih hk1,
      arrive32_of_ne { count := wrapInt (k : Int), tripCount := -1, generation := 0 } hne,
      Nat.cast_succ]
    exact congrArg (fun c => ({ count := c, tripCount := -1, generation := 0 } : pthread_barrier_t))
      (wrapInt_succ (k : Int))

/-- C4, refuted as stated. With one party the claim asks for
`generation = 2^31` after `2^31` arrivals, which is no value of the `int`
member: the increment at `generation = INT_MAX` overflows, the wrapped value
is `INT_MIN`, and the generation has gone down. With `2^32 - 1` parties
`tripCount` is -1, and after `2^31` arrivals `count` has overflowed instead of
being `k mod N = 2^31`. -/
theorem C4_counters_leave_int :
    (arrivals32 (pthread_barrier_init 1).2 2147483647).generation = 2147483647 ∧
    (arrivals32 (pthread_barrier_init 1).2 2147483648).generation = -2147483648 ∧
    (2147483648 / 1 : Nat) = 2147483648 ∧
    ¬ IsInt 2147483648 ∧
    (pthread_barrier_init 4294967295).2.tripCount = -1 ∧
    (arrivals32 (pthread_barrier_init 4294967295).2 2147483648).count = -2147483648 ∧
    (2147483648 % 4294967295 : Nat) = 2147483648 := by
  have hb1 : (pthread_barrier_init 1).2 = { count := 0, tripCount := 1, generation := 0 } := by
    decide
  have hb2 : (pthread_barrier_init 4294967295).2
      = { count := 0, tripCount := -1, generation := 0 } := by
    decide
  rw [hb1, hb2, arrivals32_single, arrivals32_single,
    arrivals32_wide 2147483648 (by norm_num)]
  refine ⟨by decide, by decide, by decide, ?_, rfl, by decide, by decide⟩
  intro h
  exact absurd h.2 (by decide)

end Lab06
